import Mathlib

/-! mdpu.c: a register-and-memory processing unit.

A shallow embedding of `src/mdpu.c`: the machine state, the per-opcode
functions, the fetch-dispatch loop of `execute_program` and the state capture
of `run`, followed by theorems about them.

Conventions of the embedding.

* A C `int` is a mathematical integer (`Int`). Arithmetic whose result may
  leave the 32-bit range (`+`, `-`, `*`, `<<`, and `instruction_pointer++`
  after a `JE` or `JNE` has stored `addr`) is reduced with `wrap32`. The
  division `INT_MIN / -1` is not: it traps on x86, and the embedding reports
  it as `Outcome.exit Fault.UndefinedBehaviour`.
* A buffer (`int *` together with its element count) is a `List Int`; the
  element count stored beside the pointer in the C struct is the length of
  the list.
* `exit(1)` ends the process: an operation that reaches it yields
  `Outcome.exit f pu`, where `f` names the printed error and `pu` is the
  machine as it is at that moment.
* An array access outside its allocation has no defined behaviour in C; the
  embedding reports it as `Outcome.exit Fault.UndefinedBehaviour`, with the
  machine as it is at that moment.
* The `while` loop of `execute_program` is iterated with a fuel argument;
  `none` means that the fuel ran out before the loop was left.
-/

namespace Mdpu

/-! ## Machine integers -/

/-- The value of a 32-bit two's-complement `int` that holds `x` modulo `2^32`. -/
def wrap32 (x : Int) : Int := (x + 2147483648) % 4294967296 - 2147483648

/-- The C expression `a / b` on `int`: the quotient truncated toward zero.
There is none for a zero divisor, nor for `INT_MIN / -1`, whose quotient is
not an `int`: both are undefined in C and trap on x86. -/
def c_div (a b : Int) : Option Int :=
  if b = 0 ∨ (a = -2147483648 ∧ b = -1) then none else some (wrap32 (Int.tdiv a b))

/-- The C expression `a << b` on `int`, the shift count taken modulo 32 as the
x86 shift instructions do (a count outside `0..31` is undefined in C). -/
def c_shl (a b : Int) : Int := wrap32 (a * 2 ^ (b % 32).toNat)

/-- The C expression `a >> b` on `int`: an arithmetic shift, the shift count
taken modulo 32 (a count outside `0..31` is undefined in C). -/
def c_shr (a b : Int) : Int := a / 2 ^ (b % 32).toNat

/-! ## Data model -/

/-- The struct `ProcessingUnit`. The fields `num_registers` and `memory_size`
of the C struct are the lengths of the two buffers. -/
structure ProcessingUnit where
  registers : List Int
  memory : List Int
  stack_pointer : Int
deriving DecidableEq

/-- The field `num_registers`: the element count of `registers`. -/
def ProcessingUnit.num_registers (pu : ProcessingUnit) : Int := pu.registers.length

/-- The field `memory_size`: the element count of `memory`. -/
def ProcessingUnit.memory_size (pu : ProcessingUnit) : Int := pu.memory.length

/-- The struct `ProcessingUnitState`: the state handed back by `run`. -/
structure ProcessingUnitState where
  registers : List Int
  stack : List Int
  stack_size : Int
deriving DecidableEq

/-- The enum `Opcode`, its enumerators in the order of the source
(`OP_ADD = 0`, ..., `OP_HALT = 23`). -/
inductive Opcode where
  | OP_ADD | OP_SUB | OP_MUL | OP_DIV | OP_STORE | OP_LOAD | OP_LOAD_IMMEDIATE
  | OP_PUSH | OP_POP | OP_JMP | OP_JZ | OP_JNZ | OP_MOV | OP_JE | OP_JNE
  | OP_AND | OP_OR | OP_XOR | OP_NOT | OP_SHL | OP_SHR | OP_CMP | OP_TEST
  | OP_HALT
deriving DecidableEq

/-- The integer value of an enumerator. -/
def Opcode.toInt : Opcode → Int
  | .OP_ADD => 0 | .OP_SUB => 1 | .OP_MUL => 2 | .OP_DIV => 3
  | .OP_STORE => 4 | .OP_LOAD => 5 | .OP_LOAD_IMMEDIATE => 6
  | .OP_PUSH => 7 | .OP_POP => 8 | .OP_JMP => 9 | .OP_JZ => 10
  | .OP_JNZ => 11 | .OP_MOV => 12 | .OP_JE => 13 | .OP_JNE => 14
  | .OP_AND => 15 | .OP_OR => 16 | .OP_XOR => 17 | .OP_NOT => 18
  | .OP_SHL => 19 | .OP_SHR => 20 | .OP_CMP => 21 | .OP_TEST => 22
  | .OP_HALT => 23

/-- The enumerator an integer stands for, if any: the `case` label of the
`switch` in `execute_program` that a value of `instr.opcode` selects. -/
def Opcode.ofInt (v : Int) : Option Opcode :=
  if v < 0 then none
  else
    match v.toNat with
    | 0 => some .OP_ADD | 1 => some .OP_SUB | 2 => some .OP_MUL
    | 3 => some .OP_DIV | 4 => some .OP_STORE | 5 => some .OP_LOAD
    | 6 => some .OP_LOAD_IMMEDIATE | 7 => some .OP_PUSH | 8 => some .OP_POP
    | 9 => some .OP_JMP | 10 => some .OP_JZ | 11 => some .OP_JNZ
    | 12 => some .OP_MOV | 13 => some .OP_JE | 14 => some .OP_JNE
    | 15 => some .OP_AND | 16 => some .OP_OR | 17 => some .OP_XOR
    | 18 => some .OP_NOT | 19 => some .OP_SHL | 20 => some .OP_SHR
    | 21 => some .OP_CMP | 22 => some .OP_TEST | 23 => some .OP_HALT
    | _ => none

/-- The struct `Instruction`. The field `opcode` is the stored integer value
of the enum, which need not be one of the 24 enumerators. -/
structure Instruction where
  opcode : Int
  reg1 : Int
  reg2 : Int
  reg3 : Int
  addr : Int
  immediate : Int
deriving DecidableEq

/-- The initializer `{op, reg1, reg2, reg3, addr, immediate}` of the source. -/
def Instruction.mk_op (op : Opcode) (reg1 reg2 reg3 addr immediate : Int) : Instruction :=
  ⟨op.toInt, reg1, reg2, reg3, addr, immediate⟩

/-- The errors on which the program prints a message and calls `exit(1)`,
and `UndefinedBehaviour` for an array access outside its allocation and for
the division `INT_MIN / -1`. -/
inductive Fault where
  | RegisterOutOfBounds (reg : Int)
  | MemoryAddressOutOfBounds (addr : Int)
  | DivisionByZero
  | StackOverflow (reg : Int)
  | StackUnderflow (reg : Int)
  | InstructionLimitExceeded
  | AllocationFailure
  | UndefinedBehaviour
deriving DecidableEq

/-- The result of a function that may call `exit(1)`: it returns (`ok`), or
the process ends with error `f` while the machine is `pu` (`exit`). -/
inductive Outcome (α : Type) where
  | ok (a : α)
  | exit (f : Fault) (pu : ProcessingUnit)
deriving DecidableEq

/-- Continue with the value a function returned; an exit stays an exit. -/
def Outcome.map {α β : Type} (k : α → β) : Outcome α → Outcome β
  | .ok a => .ok (k a)
  | .exit f pu => .exit f pu

/-- The C expression `xs[i]` for an index inside the buffer. -/
def cell (xs : List Int) (i : Int) : Int := xs.getD i.toNat 0

/-- The C assignment `xs[i] = v` for an index inside the buffer. -/
def put (xs : List Int) (i : Int) (v : Int) : List Int := xs.set i.toNat v

/-! ## Machine state -/

/-- The function `initialize` of the source. An allocation of a negative
element count cannot succeed (`malloc` is asked for more than the address
space holds), and the process exits: `none`. -/
def init_unit (num_registers memory_size : Int) : Option ProcessingUnit :=
  if num_registers < 0 ∨ memory_size < 0 then none
  else some
    { registers := List.replicate num_registers.toNat 0
      memory := List.replicate memory_size.toNat 0
      stack_pointer := memory_size - 1 }

/-- The function `check_register_bounds`, followed by the rest `k` of the
calling function when the check passes. -/
def check_register_bounds {α : Type} (pu : ProcessingUnit) (reg : Int)
    (k : Outcome α) : Outcome α :=
  if reg < 0 ∨ reg ≥ pu.num_registers then .exit (.RegisterOutOfBounds reg) pu
  else k

/-! ## Opcode semantics -/

def add (pu : ProcessingUnit) (reg1 reg2 reg3 : Int) : Outcome ProcessingUnit :=
  check_register_bounds pu reg1 <|
  check_register_bounds pu reg2 <|
  check_register_bounds pu reg3 <|
  .ok { pu with
    registers := put pu.registers reg3 (wrap32 (cell pu.registers reg1 + cell pu.registers reg2)) }

def subtract (pu : ProcessingUnit) (reg1 reg2 reg3 : Int) : Outcome ProcessingUnit :=
  check_register_bounds pu reg1 <|
  check_register_bounds pu reg2 <|
  check_register_bounds pu reg3 <|
  .ok { pu with
    registers := put pu.registers reg3 (wrap32 (cell pu.registers reg1 - cell pu.registers reg2)) }

def multiply (pu : ProcessingUnit) (reg1 reg2 reg3 : Int) : Outcome ProcessingUnit :=
  check_register_bounds pu reg1 <|
  check_register_bounds pu reg2 <|
  check_register_bounds pu reg3 <|
  .ok { pu with
    registers := put pu.registers reg3 (wrap32 (cell pu.registers reg1 * cell pu.registers reg2)) }

/-- The function `divide`. Only a zero divisor is guarded; the division
`INT_MIN / -1` is carried out and has no result. -/
def divide (pu : ProcessingUnit) (reg1 reg2 reg3 : Int) : Outcome ProcessingUnit :=
  check_register_bounds pu reg1 <|
  check_register_bounds pu reg2 <|
  check_register_bounds pu reg3 <|
  if cell pu.registers reg2 ≠ 0 then
    match c_div (cell pu.registers reg1) (cell pu.registers reg2) with
    | some q => .ok { pu with registers := put pu.registers reg3 q }
    | none => .exit .UndefinedBehaviour pu
  else .exit .DivisionByZero pu

def store (pu : ProcessingUnit) (reg addr : Int) : Outcome ProcessingUnit :=
  check_register_bounds pu reg <|
  if addr ≥ 0 ∧ addr < pu.memory_size then
    .ok { pu with memory := put pu.memory addr (cell pu.registers reg) }
  else .exit (.MemoryAddressOutOfBounds addr) pu

def load (pu : ProcessingUnit) (addr reg : Int) : Outcome ProcessingUnit :=
  check_register_bounds pu reg <|
  if addr ≥ 0 ∧ addr < pu.memory_size then
    .ok { pu with registers := put pu.registers reg (cell pu.memory addr) }
  else .exit (.MemoryAddressOutOfBounds addr) pu

/-- The function `push`. The write `memory[stack_pointer]` is guarded only by
`stack_pointer >= 0`; above the buffer it is outside the allocation. -/
def push (pu : ProcessingUnit) (reg : Int) : Outcome ProcessingUnit :=
  check_register_bounds pu reg <|
  if pu.stack_pointer ≥ 0 then
    if pu.stack_pointer < pu.memory_size then
      .ok { pu with
        memory := put pu.memory pu.stack_pointer (cell pu.registers reg)
        stack_pointer := pu.stack_pointer - 1 }
    else .exit .UndefinedBehaviour pu
  else .exit (.StackOverflow reg) pu

/-- The function `pop`. The read `memory[stack_pointer]` after the increment
is guarded only from above; below the buffer it is outside the allocation. -/
def pop (pu : ProcessingUnit) (reg : Int) : Outcome ProcessingUnit :=
  check_register_bounds pu reg <|
  if pu.stack_pointer < pu.memory_size - 1 then
    if 0 ≤ pu.stack_pointer + 1 then
      .ok { pu with
        stack_pointer := pu.stack_pointer + 1
        registers := put pu.registers reg (cell pu.memory (pu.stack_pointer + 1)) }
    else .exit .UndefinedBehaviour { pu with stack_pointer := pu.stack_pointer + 1 }
  else .exit (.StackUnderflow reg) pu

def mov (pu : ProcessingUnit) (reg1 reg2 : Int) : Outcome ProcessingUnit :=
  check_register_bounds pu reg1 <|
  check_register_bounds pu reg2 <|
  .ok { pu with registers := put pu.registers reg1 (cell pu.registers reg2) }

/-- The function `jmp`: the value stored through `instruction_pointer`. -/
def jmp (_instruction_pointer : Int) (addr : Int) : Int := addr

/-- The function `jz`: the value of `*instruction_pointer` afterwards. -/
def jz (pu : ProcessingUnit) (instruction_pointer : Int) (reg addr : Int) : Outcome Int :=
  check_register_bounds pu reg <|
  if cell pu.registers reg = 0 then .ok addr else .ok instruction_pointer

def jnz (pu : ProcessingUnit) (instruction_pointer : Int) (reg addr : Int) : Outcome Int :=
  check_register_bounds pu reg <|
  if cell pu.registers reg ≠ 0 then .ok addr else .ok instruction_pointer

def je (pu : ProcessingUnit) (instruction_pointer : Int) (reg1 reg2 addr : Int) :
    Outcome Int :=
  check_register_bounds pu reg1 <|
  check_register_bounds pu reg2 <|
  if cell pu.registers reg1 = cell pu.registers reg2 then .ok addr
  else .ok instruction_pointer

def jne (pu : ProcessingUnit) (instruction_pointer : Int) (reg1 reg2 addr : Int) :
    Outcome Int :=
  check_register_bounds pu reg1 <|
  check_register_bounds pu reg2 <|
  if cell pu.registers reg1 ≠ cell pu.registers reg2 then .ok addr
  else .ok instruction_pointer

def and (pu : ProcessingUnit) (reg1 reg2 reg3 : Int) : Outcome ProcessingUnit :=
  check_register_bounds pu reg1 <|
  check_register_bounds pu reg2 <|
  check_register_bounds pu reg3 <|
  .ok { pu with
    registers := put pu.registers reg3 (Int.land (cell pu.registers reg1) (cell pu.registers reg2)) }

def or (pu : ProcessingUnit) (reg1 reg2 reg3 : Int) : Outcome ProcessingUnit :=
  check_register_bounds pu reg1 <|
  check_register_bounds pu reg2 <|
  check_register_bounds pu reg3 <|
  .ok { pu with
    registers := put pu.registers reg3 (Int.lor (cell pu.registers reg1) (cell pu.registers reg2)) }

def xor (pu : ProcessingUnit) (reg1 reg2 reg3 : Int) : Outcome ProcessingUnit :=
  check_register_bounds pu reg1 <|
  check_register_bounds pu reg2 <|
  check_register_bounds pu reg3 <|
  .ok { pu with
    registers := put pu.registers reg3 (Int.xor (cell pu.registers reg1) (cell pu.registers reg2)) }

def not (pu : ProcessingUnit) (reg1 reg2 : Int) : Outcome ProcessingUnit :=
  check_register_bounds pu reg1 <|
  check_register_bounds pu reg2 <|
  .ok { pu with registers := put pu.registers reg2 (Int.not (cell pu.registers reg1)) }

def shl (pu : ProcessingUnit) (reg1 reg2 reg3 : Int) : Outcome ProcessingUnit :=
  check_register_bounds pu reg1 <|
  check_register_bounds pu reg2 <|
  check_register_bounds pu reg3 <|
  .ok { pu with
    registers := put pu.registers reg3 (c_shl (cell pu.registers reg1) (cell pu.registers reg2)) }

def shr (pu : ProcessingUnit) (reg1 reg2 reg3 : Int) : Outcome ProcessingUnit :=
  check_register_bounds pu reg1 <|
  check_register_bounds pu reg2 <|
  check_register_bounds pu reg3 <|
  .ok { pu with
    registers := put pu.registers reg3 (c_shr (cell pu.registers reg1) (cell pu.registers reg2)) }

/-- The function `cmp`. Register 0 exists whenever the two checks passed. -/
def cmp (pu : ProcessingUnit) (reg1 reg2 : Int) : Outcome ProcessingUnit :=
  check_register_bounds pu reg1 <|
  check_register_bounds pu reg2 <|
  if cell pu.registers reg1 = cell pu.registers reg2 then
    .ok { pu with registers := put pu.registers 0 0 }
  else if cell pu.registers reg1 < cell pu.registers reg2 then
    .ok { pu with registers := put pu.registers 0 (-1) }
  else
    .ok { pu with registers := put pu.registers 0 1 }

def test (pu : ProcessingUnit) (reg1 reg2 : Int) : Outcome ProcessingUnit :=
  check_register_bounds pu reg1 <|
  check_register_bounds pu reg2 <|
  .ok { pu with
    registers := put pu.registers 0 (Int.land (cell pu.registers reg1) (cell pu.registers reg2)) }

/-- The `case OP_LOAD_IMMEDIATE` of the `switch`, which has no function of
its own in the source. -/
def load_immediate (pu : ProcessingUnit) (reg1 immediate : Int) : Outcome ProcessingUnit :=
  check_register_bounds pu reg1 <|
  .ok { pu with registers := put pu.registers reg1 immediate }

/-! ## Execution engine -/

/-- The local variables of `execute_program` together with the machine. -/
structure EngineState where
  pu : ProcessingUnit
  instruction_pointer : Int
  instruction_count : Int
deriving DecidableEq

/-- The way the `switch` statement of `execute_program` is left: by `break`
(or with no matching `case`) with the instruction pointer this loop iteration
started with (`brk`), by `break` after `je` or `jne` has stored another value
into the instruction pointer (`brk_set`), by `continue`, or by `return`. -/
inductive Flow where
  | brk (pu : ProcessingUnit) (instruction_pointer : Int)
  | brk_set (pu : ProcessingUnit) (instruction_pointer : Int)
  | cont (pu : ProcessingUnit) (instruction_pointer : Int)
  | ret (pu : ProcessingUnit)
deriving DecidableEq

/-- The `switch (instr.opcode)` of `execute_program`. After `je` and `jne`
the instruction pointer is either still the one of this loop iteration or has
been overwritten with `addr`. -/
def dispatch (pu : ProcessingUnit) (instruction_pointer : Int) (instr : Instruction) :
    Outcome Flow :=
  match Opcode.ofInt instr.opcode with
  | some .OP_ADD =>
    (add pu instr.reg1 instr.reg2 instr.reg3).map (Flow.brk · instruction_pointer)
  | some .OP_SUB =>
    (subtract pu instr.reg1 instr.reg2 instr.reg3).map (Flow.brk · instruction_pointer)
  | some .OP_MUL =>
    (multiply pu instr.reg1 instr.reg2 instr.reg3).map (Flow.brk · instruction_pointer)
  | some .OP_DIV =>
    (divide pu instr.reg1 instr.reg2 instr.reg3).map (Flow.brk · instruction_pointer)
  | some .OP_STORE =>
    (store pu instr.reg1 instr.addr).map (Flow.brk · instruction_pointer)
  | some .OP_LOAD =>
    (load pu instr.addr instr.reg1).map (Flow.brk · instruction_pointer)
  | some .OP_LOAD_IMMEDIATE =>
    (load_immediate pu instr.reg1 instr.immediate).map (Flow.brk · instruction_pointer)
  | some .OP_PUSH => (push pu instr.reg1).map (Flow.brk · instruction_pointer)
  | some .OP_POP => (pop pu instr.reg1).map (Flow.brk · instruction_pointer)
  | some .OP_JMP => .ok (Flow.cont pu (jmp instruction_pointer instr.addr))
  | some .OP_JZ => (jz pu instruction_pointer instr.reg1 instr.addr).map (Flow.cont pu ·)
  | some .OP_JNZ => (jnz pu instruction_pointer instr.reg1 instr.addr).map (Flow.cont pu ·)
  | some .OP_MOV => (mov pu instr.reg1 instr.reg2).map (Flow.brk · instruction_pointer)
  | some .OP_JE =>
    (je pu instruction_pointer instr.reg1 instr.reg2 instr.addr).map
      (fun p => if p = instruction_pointer then Flow.brk pu p else Flow.brk_set pu p)
  | some .OP_JNE =>
    (jne pu instruction_pointer instr.reg1 instr.reg2 instr.addr).map
      (fun p => if p = instruction_pointer then Flow.brk pu p else Flow.brk_set pu p)
  | some .OP_AND =>
    (and pu instr.reg1 instr.reg2 instr.reg3).map (Flow.brk · instruction_pointer)
  | some .OP_OR =>
    (or pu instr.reg1 instr.reg2 instr.reg3).map (Flow.brk · instruction_pointer)
  | some .OP_XOR =>
    (xor pu instr.reg1 instr.reg2 instr.reg3).map (Flow.brk · instruction_pointer)
  | some .OP_NOT => (not pu instr.reg1 instr.reg2).map (Flow.brk · instruction_pointer)
  | some .OP_SHL =>
    (shl pu instr.reg1 instr.reg2 instr.reg3).map (Flow.brk · instruction_pointer)
  | some .OP_SHR =>
    (shr pu instr.reg1 instr.reg2 instr.reg3).map (Flow.brk · instruction_pointer)
  | some .OP_CMP => (cmp pu instr.reg1 instr.reg2).map (Flow.brk · instruction_pointer)
  | some .OP_TEST => (test pu instr.reg1 instr.reg2).map (Flow.brk · instruction_pointer)
  | some .OP_HALT => .ok (Flow.ret pu)
  | none => .ok (Flow.brk pu instruction_pointer)

/-- The state of `execute_program` after one evaluation of the loop
condition and, when it held, of the loop body: still in the loop, or back in
the caller. -/
inductive Cycle where
  | running (s : EngineState)
  | returned (pu : ProcessingUnit)
deriving DecidableEq

/-- What follows the `switch` in the loop body: after a `break` the two
increments `instruction_pointer++` and `instruction_count++`, after a
`continue` the next evaluation of the loop condition, after a `return` the
caller. `instruction_count` is below the limit when it is incremented, and an
instruction pointer that the `switch` has not touched is below
`program_size`, so these increments stay in the `int` range. After a `JE` or
`JNE` has stored `addr` the pointer can be `INT_MAX`, and the increment is
reduced with `wrap32`: the pointer becomes `INT_MIN`. -/
def after_switch (instruction_count : Int) : Outcome Flow → Outcome Cycle
  | .exit f pu => .exit f pu
  | .ok (.brk pu ip) => .ok (.running ⟨pu, ip + 1, instruction_count + 1⟩)
  | .ok (.brk_set pu ip) => .ok (.running ⟨pu, wrap32 (ip + 1), instruction_count + 1⟩)
  | .ok (.cont pu ip) => .ok (.running ⟨pu, ip, instruction_count⟩)
  | .ok (.ret pu) => .ok (.returned pu)

/-- One evaluation of `while (instruction_pointer < program_size)` and of its
body: the limit check, the fetch, the `switch` and what follows it. The fetch
`program[instruction_pointer]` at a negative index is outside the array. -/
def cycle (program : List Instruction) (mic : Int) (s : EngineState) : Outcome Cycle :=
  if s.instruction_pointer < program.length then
    if s.instruction_count ≥ mic then .exit .InstructionLimitExceeded s.pu
    else if s.instruction_pointer < 0 then .exit .UndefinedBehaviour s.pu
    else
      match program[s.instruction_pointer.toNat]? with
      | none => .exit .UndefinedBehaviour s.pu
      | some instr => after_switch s.instruction_count (dispatch s.pu s.instruction_pointer instr)
  else .ok (.returned s.pu)

/-- The loop of `execute_program` from state `s`, run for at most `fuel`
evaluations of the loop condition; `none` when the fuel does not suffice. -/
def execute_loop (program : List Instruction) (mic : Int) :
    Nat → EngineState → Option (Outcome ProcessingUnit)
  | 0, _ => none
  | fuel + 1, s =>
    match cycle program mic s with
    | .exit f pu => some (.exit f pu)
    | .ok (.returned pu) => some (.ok pu)
    | .ok (.running s') => execute_loop program mic fuel s'

/-- The function `execute_program`: the loop started with
`instruction_count = 0` and `instruction_pointer = 0`. The result is the
machine as `execute_program` leaves it. -/
def execute_program (pu : ProcessingUnit) (program : List Instruction) (mic : Int)
    (fuel : Nat) : Option (Outcome ProcessingUnit) :=
  execute_loop program mic fuel ⟨pu, 0, 0⟩

/-! ## State capture -/

/-- The loop `for (i = 0; i < n; i++) dst[i] = src[base + i]` of `run`: the
`n` copied cells, or `none` when a read falls outside `src`. -/
def copy_cells (src : List Int) (base : Int) : Nat → Option (List Int)
  | 0 => some []
  | n + 1 =>
    match copy_cells src base n with
    | none => none
    | some copied =>
      if 0 ≤ base + n ∧ base + n < src.length then some (copied ++ [cell src (base + n)])
      else none

/-- The part of `run` after the call of `execute_program`: the stack region
and the registers are copied into a fresh `ProcessingUnitState`. A negative
`stack_size` cannot be allocated. -/
def capture (pu : ProcessingUnit) : Outcome ProcessingUnitState :=
  if pu.memory_size - pu.stack_pointer - 1 < 0 then .exit .AllocationFailure pu
  else
    match copy_cells pu.memory (pu.stack_pointer + 1)
        (pu.memory_size - pu.stack_pointer - 1).toNat with
    | none => .exit .UndefinedBehaviour pu
    | some stack =>
      .ok
        { stack_size := pu.memory_size - pu.stack_pointer - 1
          stack := stack
          registers := pu.registers }

/-- The function `run`: `execute_program`, then the capture of the final
state. -/
def run (pu : ProcessingUnit) (program : List Instruction) (mic : Int) (fuel : Nat) :
    Option (Outcome ProcessingUnitState) :=
  match execute_program pu program mic fuel with
  | none => none
  | some (.exit f pu') => some (.exit f pu')
  | some (.ok pu') => some (capture pu')

/-- The example program of `main`. -/
def main_program : List Instruction :=
  [ Instruction.mk_op .OP_LOAD_IMMEDIATE 0 0 0 0 10,
    Instruction.mk_op .OP_LOAD_IMMEDIATE 1 0 0 0 20,
    Instruction.mk_op .OP_ADD 0 1 2 0 0,
    Instruction.mk_op .OP_STORE 2 0 0 0 0,
    Instruction.mk_op .OP_HALT 0 0 0 0 0 ]

/-! ## Notions used by the statements -/

/-- A register id that passes `check_register_bounds`. -/
def reg_ok (pu : ProcessingUnit) (reg : Int) : Prop := 0 ≤ reg ∧ reg < pu.num_registers

instance (pu : ProcessingUnit) (reg : Int) : Decidable (reg_ok pu reg) := by
  unfold reg_ok; infer_instance

/-- The bounds of the stack pointer: `-1 <= stack_pointer <= memory_size - 1`. -/
def sp_ok (pu : ProcessingUnit) : Prop :=
  -1 ≤ pu.stack_pointer ∧ pu.stack_pointer ≤ pu.memory_size - 1

instance (pu : ProcessingUnit) : Decidable (sp_ok pu) := by
  unfold sp_ok; infer_instance

/-- The machine a `switch` statement leaves behind. -/
def Flow.pu : Flow → ProcessingUnit
  | .brk pu _ => pu
  | .brk_set pu _ => pu
  | .cont pu _ => pu
  | .ret pu => pu

/-- The register ids that the function of an opcode passes to
`check_register_bounds`, in the order of the calls. -/
def checked_registers (op : Opcode) (instr : Instruction) : List Int :=
  match op with
  | .OP_ADD | .OP_SUB | .OP_MUL | .OP_DIV | .OP_AND | .OP_OR | .OP_XOR | .OP_SHL
  | .OP_SHR => [instr.reg1, instr.reg2, instr.reg3]
  | .OP_STORE | .OP_LOAD | .OP_LOAD_IMMEDIATE | .OP_PUSH | .OP_POP | .OP_JZ
  | .OP_JNZ => [instr.reg1]
  | .OP_MOV | .OP_NOT | .OP_CMP | .OP_TEST | .OP_JE | .OP_JNE => [instr.reg1, instr.reg2]
  | .OP_JMP | .OP_HALT => []

/-- The engine state after `k` further evaluations of the loop condition and
body that all stay in the loop; `none` once the loop was left or the process
exited. -/
def cycles (program : List Instruction) (mic : Int) : Nat → EngineState → Option EngineState
  | 0, s => some s
  | k + 1, s =>
    match cycle program mic s with
    | .ok (.running s') => cycles program mic k s'
    | _ => none

/-- The program `[JMP 0]`: one jump to itself. -/
def jmp_self : List Instruction := [Instruction.mk_op .OP_JMP 0 0 0 0 0]



/-- A program whose instruction 0 is `JE r0,r1,addr=4`; instructions 1 to 4
each load a value into register 2, instruction 5 is `HALT`. -/
def je_program : List Instruction :=
  [ Instruction.mk_op .OP_JE 0 1 0 4 0,
    Instruction.mk_op .OP_LOAD_IMMEDIATE 2 0 0 0 1,
    Instruction.mk_op .OP_LOAD_IMMEDIATE 2 0 0 0 2,
    Instruction.mk_op .OP_LOAD_IMMEDIATE 2 0 0 0 3,
    Instruction.mk_op .OP_LOAD_IMMEDIATE 2 0 0 0 4,
    Instruction.mk_op .OP_HALT 0 0 0 0 0 ]

/-- What an instruction keeps of the machine: the lengths of the register
file and of memory, and the bounds of the stack pointer. -/
def preserved (pu pu' : ProcessingUnit) : Prop :=
  pu'.registers.length = pu.registers.length ∧ pu'.memory.length = pu.memory.length
    ∧ (sp_ok pu → sp_ok pu')

/-- A program that leaves two values on the stack: 11 is pushed first, then
22. -/
def push_program : List Instruction :=
  [ Instruction.mk_op .OP_LOAD_IMMEDIATE 0 0 0 0 11,
    Instruction.mk_op .OP_LOAD_IMMEDIATE 1 0 0 0 22,
    Instruction.mk_op .OP_PUSH 0 0 0 0 0,
    Instruction.mk_op .OP_PUSH 1 0 0 0 0,
    Instruction.mk_op .OP_HALT 0 0 0 0 0 ]

/-- A program that pushes a register holding 1, then a register holding 2,
and halts. -/
def push_two_program : List Instruction :=
  [ Instruction.mk_op .OP_LOAD_IMMEDIATE 0 0 0 0 1,
    Instruction.mk_op .OP_LOAD_IMMEDIATE 1 0 0 0 2,
    Instruction.mk_op .OP_PUSH 0 0 0 0 0,
    Instruction.mk_op .OP_PUSH 1 0 0 0 0,
    Instruction.mk_op .OP_HALT 0 0 0 0 0 ]

/-- The values a C `int` of 32 bits can hold. -/
def is_int32 (x : Int) : Prop := -2147483648 ≤ x ∧ x ≤ 2147483647

instance (x : Int) : Decidable (is_int32 x) := by
  unfold is_int32; infer_instance

/-- Two instructions agree on the operand fields that the `case` of opcode
`op` in the `switch` passes on to the function of that opcode. -/
def same_used_fields (op : Opcode) (a b : Instruction) : Prop :=
  match op with
  | .OP_ADD | .OP_SUB | .OP_MUL | .OP_DIV | .OP_AND | .OP_OR | .OP_XOR | .OP_SHL
  | .OP_SHR => a.reg1 = b.reg1 ∧ a.reg2 = b.reg2 ∧ a.reg3 = b.reg3
  | .OP_STORE | .OP_LOAD => a.reg1 = b.reg1 ∧ a.addr = b.addr
  | .OP_LOAD_IMMEDIATE => a.reg1 = b.reg1 ∧ a.immediate = b.immediate
  | .OP_PUSH | .OP_POP => a.reg1 = b.reg1
  | .OP_MOV | .OP_NOT | .OP_CMP | .OP_TEST => a.reg1 = b.reg1 ∧ a.reg2 = b.reg2
  | .OP_JMP => a.addr = b.addr
  | .OP_JZ | .OP_JNZ => a.reg1 = b.reg1 ∧ a.addr = b.addr
  | .OP_JE | .OP_JNE => a.reg1 = b.reg1 ∧ a.reg2 = b.reg2 ∧ a.addr = b.addr
  | .OP_HALT => True

instance (op : Opcode) (a b : Instruction) : Decidable (same_used_fields op a b) := by
  unfold same_used_fields; cases op <;> infer_instance

/-- One instruction that is not a jump, followed by `HALT`. -/
def halt_after_one : List Instruction :=
  [ Instruction.mk_op .OP_LOAD_IMMEDIATE 0 0 0 0 1,
    Instruction.mk_op .OP_HALT 0 0 0 0 0 ]

/-- A program of one instruction whose opcode value, 99, is none of the 24
enumerators. -/
def unknown_program : List Instruction := [⟨99, 0, 0, 0, 0, 0⟩]

/-- An instruction that is not `JMP`, `JZ` or `JNZ` and whose target, if it is
`JE` or `JNE`, is at least -1. -/
def no_uncounted_jump (instr : Instruction) : Bool :=
  match Opcode.ofInt instr.opcode with
  | some .OP_JMP | some .OP_JZ | some .OP_JNZ => false
  | some .OP_JE | some .OP_JNE => decide (-1 ≤ instr.addr)
  | _ => true

/-- The errors the program reports itself while it executes instructions:
every `Fault` but a failed allocation and undefined behaviour. -/
def Fault.typed : Fault → Bool
  | .AllocationFailure | .UndefinedBehaviour => false
  | _ => true

/-- An instruction whose target, if it is `JE` or `JNE`, is below `INT_MAX`. -/
def target_below_max (instr : Instruction) : Bool :=
  match Opcode.ofInt instr.opcode with
  | some .OP_JE | some .OP_JNE => decide (instr.addr < 2147483647)
  | _ => true

/-- The instruction is a `DIV` that divides `INT_MIN` by -1 on this machine. -/
def div_overflow (pu : ProcessingUnit) (instr : Instruction) : Prop :=
  Opcode.ofInt instr.opcode = some .OP_DIV ∧ cell pu.registers instr.reg1 = -2147483648
    ∧ cell pu.registers instr.reg2 = -1

instance (pu : ProcessingUnit) (instr : Instruction) : Decidable (div_overflow pu instr) := by
  unfold div_overflow; infer_instance

/-- What the `switch` can do on an instruction with `no_uncounted_jump` and
`target_below_max`: leave by `return`; leave by `break` with the pointer
untouched, or set to a value from -1 to `INT_MAX - 1`; exit with an error of
the program that is not the limit; or run into undefined behaviour, which is
the division `INT_MIN / -1` unless the stack pointer is out of bounds. -/
def counted_outcome (pu : ProcessingUnit) (ip : Int) (instr : Instruction) :
    Outcome Flow → Prop
  | .ok (.ret _) => True
  | .ok (.brk _ ip') => ip' = ip
  | .ok (.brk_set _ ip') => -1 ≤ ip' ∧ ip' < 2147483647
  | .ok (.cont _ _) => False
  | .exit f _ => (f.typed = true ∧ f ≠ .InstructionLimitExceeded)
      ∨ (f = .UndefinedBehaviour ∧ (div_overflow pu instr ∨ ¬ sp_ok pu))

/-- A program that loads `INT_MIN` and -1 and divides the one by the other. -/
def div_trap_program : List Instruction :=
  [ Instruction.mk_op .OP_LOAD_IMMEDIATE 0 0 0 0 (-2147483648),
    Instruction.mk_op .OP_LOAD_IMMEDIATE 1 0 0 0 (-1),
    Instruction.mk_op .OP_DIV 0 1 2 0 0 ]

/-- The program `[JE r0,r0,addr=INT_MAX]`: one jump that is always taken, to
the largest `int`. -/
def je_max_program : List Instruction := [Instruction.mk_op .OP_JE 0 0 0 2147483647 0]

/-! ## Basic facts -/

theorem check_register_bounds_pass {α : Type} {pu : ProcessingUnit} {reg : Int}
    (h : reg_ok pu reg) (k : Outcome α) : check_register_bounds pu reg k = k := by
  unfold check_register_bounds reg_ok at *
  rw [if_neg]; omega

theorem check_register_bounds_fail {α : Type} {pu : ProcessingUnit} {reg : Int}
    (h : ¬ reg_ok pu reg) (k : Outcome α) :
    check_register_bounds pu reg k = .exit (.RegisterOutOfBounds reg) pu := by
  unfold check_register_bounds reg_ok at *
  rw [if_pos]; omega

theorem length_put (xs : List Int) (i v : Int) : (put xs i v).length = xs.length := by
  simp [put]

theorem cell_put_same (xs : List Int) (i v : Int) (h0 : 0 ≤ i) (h1 : i < xs.length) :
    cell (put xs i v) i = v := by
  have : i.toNat < xs.length := by omega
  simp [cell, put, List.getD_eq_getElem?_getD, List.getElem?_set, this]

theorem cell_put_other (xs : List Int) (i j v : Int) (h0 : 0 ≤ i) (h1 : 0 ≤ j) (h : i ≠ j) :
    cell (put xs i v) j = cell xs j := by
  have : i.toNat ≠ j.toNat := by omega
  simp [cell, put, List.getD_eq_getElem?_getD, List.getElem?_set, this]

theorem wrap32_of_int32 (x : Int) (h : is_int32 x) : wrap32 x = x := by
  unfold wrap32 is_int32 at *
  omega

theorem wrap32_int32 (x : Int) : is_int32 (wrap32 x) ∧ (wrap32 x - x) % 4294967296 = 0 := by
  unfold wrap32 is_int32
  omega

theorem c_div_some (a b : Int) (hb : b ≠ 0) (hov : ¬ (a = -2147483648 ∧ b = -1)) :
    c_div a b = some (wrap32 (Int.tdiv a b)) := by
  unfold c_div
  rw [if_neg]
  intro h
  rcases h with h | h
  · exact hb h
  · exact hov h

theorem c_div_overflow : c_div (-2147483648) (-1) = none := by
  decide

theorem divide_some {pu : ProcessingUnit} {reg1 reg2 reg3 q : Int}
    (h1 : reg_ok pu reg1) (h2 : reg_ok pu reg2) (h3 : reg_ok pu reg3)
    (hne : cell pu.registers reg2 ≠ 0)
    (hq : c_div (cell pu.registers reg1) (cell pu.registers reg2) = some q) :
    divide pu reg1 reg2 reg3 = .ok { pu with registers := put pu.registers reg3 q } := by
  rw [divide, check_register_bounds_pass h1, check_register_bounds_pass h2,
    check_register_bounds_pass h3, if_pos hne, hq]

theorem divide_none {pu : ProcessingUnit} {reg1 reg2 reg3 : Int}
    (h1 : reg_ok pu reg1) (h2 : reg_ok pu reg2) (h3 : reg_ok pu reg3)
    (hne : cell pu.registers reg2 ≠ 0)
    (hq : c_div (cell pu.registers reg1) (cell pu.registers reg2) = none) :
    divide pu reg1 reg2 reg3 = .exit .UndefinedBehaviour pu := by
  rw [divide, check_register_bounds_pass h1, check_register_bounds_pass h2,
    check_register_bounds_pass h3, if_pos hne, hq]

theorem divide_zero {pu : ProcessingUnit} {reg1 reg2 reg3 : Int}
    (h1 : reg_ok pu reg1) (h2 : reg_ok pu reg2) (h3 : reg_ok pu reg3)
    (he : cell pu.registers reg2 = 0) :
    divide pu reg1 reg2 reg3 = .exit .DivisionByZero pu := by
  rw [divide, check_register_bounds_pass h1, check_register_bounds_pass h2,
    check_register_bounds_pass h3, if_neg (not_not.mpr he)]

theorem init_unit_ofNat (n m : Nat) :
    init_unit n m = some ⟨List.replicate n 0, List.replicate m 0, (m : Int) - 1⟩ := by
  simp [init_unit]

theorem cycle_fetch {program : List Instruction} {mic : Int} {s : EngineState}
    {instr : Instruction} (i : Nat) (hi : s.instruction_pointer = i)
    (hf : program[i]? = some instr) (hc : s.instruction_count < mic) :
    cycle program mic s
      = after_switch s.instruction_count (dispatch s.pu s.instruction_pointer instr) := by
  have hlt : i < program.length := by
    rcases Nat.lt_or_ge i program.length with h | h
    · exact h
    · rw [List.getElem?_eq_none h] at hf; cases hf
  unfold cycle
  rw [if_pos (by omega), if_neg (by omega), if_neg (by omega)]
  simp [hi, hf]

theorem execute_loop_running {program : List Instruction} {mic : Int} {s s' : EngineState}
    (h : cycle program mic s = .ok (.running s')) (fuel : Nat) :
    execute_loop program mic (fuel + 1) s = execute_loop program mic fuel s' := by
  rw [execute_loop, h]

theorem execute_loop_returned {program : List Instruction} {mic : Int} {s : EngineState}
    {pu : ProcessingUnit} (h : cycle program mic s = .ok (.returned pu)) (fuel : Nat) :
    execute_loop program mic (fuel + 1) s = some (.ok pu) := by
  rw [execute_loop, h]

theorem execute_loop_exit {program : List Instruction} {mic : Int} {s : EngineState}
    {f : Fault} {pu : ProcessingUnit} (h : cycle program mic s = .exit f pu) (fuel : Nat) :
    execute_loop program mic (fuel + 1) s = some (.exit f pu) := by
  rw [execute_loop, h]

/-! ## Properties of the program -/

/-- C1: on a machine freshly created with at least 3 registers and at least 1
memory cell, and with a limit of at least 5 instructions, the example program
of `main` runs to its `HALT` (given fuel for its 5 loop iterations): the
machine still has `stack_pointer = memory_size - 1`, and `run` hands back the
registers 10, 20, 30 followed by zeros and an empty stack. -/
theorem main_program_run (n m mic : Int) (fuel : Nat) (hn : 3 ≤ n) (hm : 1 ≤ m)
    (hmic : 5 ≤ mic) (hfuel : 5 ≤ fuel) :
    ∃ pu pu', init_unit n m = some pu
      ∧ execute_program pu main_program mic fuel = some (.ok pu')
      ∧ pu'.memory_size = m ∧ pu'.stack_pointer = m - 1
      ∧ run pu main_program mic fuel
          = some (.ok ⟨10 :: 20 :: 30 :: List.replicate (n - 3).toNat 0, [], 0⟩) := by
  obtain ⟨k, rfl⟩ : ∃ k : Nat, n = ((k + 3 : Nat) : Int) := ⟨(n - 3).toNat, by omega⟩
  obtain ⟨j, rfl⟩ : ∃ j : Nat, m = ((j + 1 : Nat) : Int) := ⟨(m - 1).toNat, by omega⟩
  obtain ⟨f, rfl⟩ : ∃ f : Nat, fuel = f + 5 := ⟨fuel - 5, by omega⟩
  refine ⟨_, ⟨10 :: 20 :: 30 :: List.replicate k 0, 30 :: List.replicate j 0, (j : Int)⟩,
    init_unit_ofNat _ _, ?_⟩
  have hk : ¬ ((k : Int) + 1 + 1 + 1 ≤ 0) := by omega
  have hk1 : ¬ ((k : Int) + 1 + 1 + 1 ≤ 1) := by omega
  have hk2 : ¬ ((k : Int) + 1 + 1 + 1 ≤ 2) := by omega
  have hj : (0 : Int) < j + 1 := by omega
  have hex : execute_program ⟨List.replicate (k + 3) 0, List.replicate (j + 1) 0,
      ((j + 1 : Nat) : Int) - 1⟩ main_program mic (f + 5)
      = some (.ok ⟨10 :: 20 :: 30 :: List.replicate k 0, 30 :: List.replicate j 0, (j : Int)⟩) := by
    have c0 : cycle main_program mic ⟨⟨List.replicate (k + 3) 0, List.replicate (j + 1) 0,
        ((j + 1 : Nat) : Int) - 1⟩, 0, 0⟩
        = .ok (.running ⟨⟨10 :: 0 :: 0 :: List.replicate k 0, 0 :: List.replicate j 0, (j : Int)⟩,
            1, 1⟩) := by
      rw [cycle_fetch 0 rfl rfl (by simpa using (by omega : 0 < mic))]
      simp [dispatch, main_program, Instruction.mk_op, Opcode.toInt, Opcode.ofInt,
        load_immediate, check_register_bounds, ProcessingUnit.num_registers, Outcome.map,
        after_switch, put, List.replicate_succ, hk]
    have c1 : cycle main_program mic
        ⟨⟨10 :: 0 :: 0 :: List.replicate k 0, 0 :: List.replicate j 0, (j : Int)⟩, 1, 1⟩
        = .ok (.running ⟨⟨10 :: 20 :: 0 :: List.replicate k 0, 0 :: List.replicate j 0, (j : Int)⟩,
            2, 2⟩) := by
      rw [cycle_fetch 1 rfl rfl (by simpa using (by omega : 1 < mic))]
      simp [dispatch, main_program, Instruction.mk_op, Opcode.toInt, Opcode.ofInt,
        load_immediate, check_register_bounds, ProcessingUnit.num_registers, Outcome.map,
        after_switch, put, hk1]
    have c2 : cycle main_program mic
        ⟨⟨10 :: 20 :: 0 :: List.replicate k 0, 0 :: List.replicate j 0, (j : Int)⟩, 2, 2⟩
        = .ok (.running ⟨⟨10 :: 20 :: 30 :: List.replicate k 0, 0 :: List.replicate j 0, (j : Int)⟩,
            3, 3⟩) := by
      rw [cycle_fetch 2 rfl rfl (by simpa using (by omega : 2 < mic))]
      simp [dispatch, main_program, Instruction.mk_op, Opcode.toInt, Opcode.ofInt,
        add, check_register_bounds, ProcessingUnit.num_registers, Outcome.map,
        after_switch, put, cell, wrap32, hk, hk1, hk2]
    have c3 : cycle main_program mic
        ⟨⟨10 :: 20 :: 30 :: List.replicate k 0, 0 :: List.replicate j 0, (j : Int)⟩, 3, 3⟩
        = .ok (.running ⟨⟨10 :: 20 :: 30 :: List.replicate k 0, 30 :: List.replicate j 0, (j : Int)⟩,
            4, 4⟩) := by
      rw [cycle_fetch 3 rfl rfl (by simpa using (by omega : 3 < mic))]
      simp [dispatch, main_program, Instruction.mk_op, Opcode.toInt, Opcode.ofInt,
        store, check_register_bounds, ProcessingUnit.num_registers,
        ProcessingUnit.memory_size, Outcome.map, after_switch, put, cell, hk2, hj]
    have c4 : cycle main_program mic
        ⟨⟨10 :: 20 :: 30 :: List.replicate k 0, 30 :: List.replicate j 0, (j : Int)⟩, 4, 4⟩
        = .ok (.returned ⟨10 :: 20 :: 30 :: List.replicate k 0, 30 :: List.replicate j 0, (j : Int)⟩) := by
      rw [cycle_fetch 4 rfl rfl (by simpa using (by omega : 4 < mic))]
      simp [dispatch, main_program, Instruction.mk_op, Opcode.toInt, Opcode.ofInt,
        after_switch]
    unfold execute_program
    rw [execute_loop_running c0, execute_loop_running c1, execute_loop_running c2,
      execute_loop_running c3, execute_loop_returned c4]
  refine ⟨hex, ?_, ?_, ?_⟩
  · simp [ProcessingUnit.memory_size]
  · simp
  · rw [run, hex]
    simp [capture, ProcessingUnit.memory_size, copy_cells]

/-- C1, the scenario of the specification: 3 registers, 4 memory cells and a
limit of 1000 instructions give the registers `[10, 20, 30]` and no stack. -/
theorem main_program_run_witness :
    ∃ pu pu', init_unit 3 4 = some pu
      ∧ execute_program pu main_program 1000 5 = some (.ok pu')
      ∧ pu'.memory_size = 4 ∧ pu'.stack_pointer = 4 - 1
      ∧ run pu main_program 1000 5 = some (.ok ⟨[10, 20, 30], [], 0⟩) :=
  main_program_run 3 4 1000 5 (by decide) (by decide) (by decide) (by decide)

/-- C2: on the program `[JMP 0]` with a positive instruction limit, one loop
iteration dispatches the `JMP` and comes back to the very same engine state,
`instruction_count` still 0 (the `continue` of `case OP_JMP` skips
`instruction_count++`). So after any number of dispatches the count is 0,
and no amount of fuel ends the loop: the run never fails with
`InstructionLimitExceeded`. -/
theorem jmp_self_never_counted (pu : ProcessingUnit) (mic : Int) (hmic : 0 < mic) :
    cycle jmp_self mic ⟨pu, 0, 0⟩ = .ok (.running ⟨pu, 0, 0⟩)
      ∧ (∀ k, cycles jmp_self mic k ⟨pu, 0, 0⟩ = some ⟨pu, 0, 0⟩)
      ∧ (∀ fuel, execute_program pu jmp_self mic fuel = none)
      ∧ (∀ fuel pu', execute_program pu jmp_self mic fuel
            ≠ some (.exit .InstructionLimitExceeded pu')) := by
  have hc : cycle jmp_self mic ⟨pu, 0, 0⟩ = .ok (.running ⟨pu, 0, 0⟩) := by
    rw [cycle_fetch 0 rfl rfl hmic]
    simp [dispatch, jmp_self, Instruction.mk_op, Opcode.toInt, Opcode.ofInt, jmp,
      after_switch]
  have hk : ∀ k, cycles jmp_self mic k ⟨pu, 0, 0⟩ = some ⟨pu, 0, 0⟩ := by
    intro k
    induction k with
    | zero => rfl
    | succ k ih => rw [cycles, hc]; exact ih
  have hf : ∀ fuel, execute_program pu jmp_self mic fuel = none := by
    intro fuel
    unfold execute_program
    induction fuel with
    | zero => rfl
    | succ fuel ih => rw [execute_loop_running hc]; exact ih
  refine ⟨hc, hk, hf, ?_⟩
  intro fuel pu' h
  rw [hf fuel] at h
  cases h

/-- C2 at the limit 5 of the specification, on a machine of 3 registers and
4 memory cells. -/
theorem jmp_self_never_counted_witness :
    cycle jmp_self 5 ⟨⟨[0, 0, 0], [0, 0, 0, 0], 3⟩, 0, 0⟩
        = .ok (.running ⟨⟨[0, 0, 0], [0, 0, 0, 0], 3⟩, 0, 0⟩)
      ∧ (∀ k, cycles jmp_self 5 k ⟨⟨[0, 0, 0], [0, 0, 0, 0], 3⟩, 0, 0⟩
            = some ⟨⟨[0, 0, 0], [0, 0, 0, 0], 3⟩, 0, 0⟩)
      ∧ (∀ fuel, execute_program ⟨[0, 0, 0], [0, 0, 0, 0], 3⟩ jmp_self 5 fuel = none)
      ∧ (∀ fuel pu', execute_program ⟨[0, 0, 0], [0, 0, 0, 0], 3⟩ jmp_self 5 fuel
            ≠ some (.exit .InstructionLimitExceeded pu')) :=
  jmp_self_never_counted ⟨[0, 0, 0], [0, 0, 0, 0], 3⟩ 5 (by decide)

/-- C3, counterexample: on `je_max_program` the `JE` at index 0 is taken with
`addr = 2147483647`; `instruction_pointer++` after the `break` overflows, so
the instruction pointer is not `addr + 1` afterwards but `INT_MIN`, and the
next loop iteration fetches outside the program. -/
theorem je_landing_counterexample :
    cycle je_max_program 1000 ⟨⟨[0], [0], 0⟩, 0, 0⟩
        = .ok (.running ⟨⟨[0], [0], 0⟩, -2147483648, 1⟩)
      ∧ cycle je_max_program 1000 ⟨⟨[0], [0], 0⟩, 0, 0⟩
        ≠ .ok (.running ⟨⟨[0], [0], 0⟩, 2147483647 + 1, 1⟩)
      ∧ cycle je_max_program 1000 ⟨⟨[0], [0], 0⟩, -2147483648, 1⟩
        = .exit .UndefinedBehaviour ⟨[0], [0], 0⟩ := by
  decide

/-- C3, amended: when the instruction at the instruction pointer is
`JE reg1,reg2,addr` (respectively `JNE`) with both registers in bounds, the
limit not reached and `addr` an `int` below `INT_MAX`, one loop iteration
leaves the machine unchanged and counts one instruction; the instruction
pointer becomes `addr + 1` when the two registers are equal (respectively
differ) and the old value plus 1 otherwise. -/
theorem je_jne_landing (program : List Instruction) (mic : Int) (s : EngineState)
    (instr : Instruction) (i : Nat) (hi : s.instruction_pointer = i)
    (hf : program[i]? = some instr) (hc : s.instruction_count < mic)
    (h1 : reg_ok s.pu instr.reg1) (h2 : reg_ok s.pu instr.reg2)
    (haddr : is_int32 instr.addr) (hmax : instr.addr < 2147483647) :
    (instr.opcode = Opcode.OP_JE.toInt →
        cycle program mic s = .ok (.running ⟨s.pu,
          (if cell s.pu.registers instr.reg1 = cell s.pu.registers instr.reg2
            then instr.addr + 1 else s.instruction_pointer + 1),
          s.instruction_count + 1⟩))
      ∧ (instr.opcode = Opcode.OP_JNE.toInt →
        cycle program mic s = .ok (.running ⟨s.pu,
          (if cell s.pu.registers instr.reg1 ≠ cell s.pu.registers instr.reg2
            then instr.addr + 1 else s.instruction_pointer + 1),
          s.instruction_count + 1⟩)) := by
  have hw : wrap32 (instr.addr + 1) = instr.addr + 1 :=
    wrap32_of_int32 _ (by unfold is_int32 at *; omega)
  constructor
  · intro hop
    have ho : Opcode.ofInt instr.opcode = some .OP_JE := by rw [hop]; rfl
    rw [cycle_fetch i hi hf hc]
    simp only [dispatch, ho, je, check_register_bounds_pass h1, check_register_bounds_pass h2]
    by_cases he : cell s.pu.registers instr.reg1 = cell s.pu.registers instr.reg2
    · by_cases ha : instr.addr = s.instruction_pointer
      · simp [he, ha, Outcome.map, after_switch]
      · simp [he, ha, hw, Outcome.map, after_switch]
    · simp [he, Outcome.map, after_switch]
  · intro hop
    have ho : Opcode.ofInt instr.opcode = some .OP_JNE := by rw [hop]; rfl
    rw [cycle_fetch i hi hf hc]
    simp only [dispatch, ho, jne, check_register_bounds_pass h1, check_register_bounds_pass h2]
    by_cases he : cell s.pu.registers instr.reg1 = cell s.pu.registers instr.reg2
    · simp [he, Outcome.map, after_switch]
    · by_cases ha : instr.addr = s.instruction_pointer
      · simp [he, ha, Outcome.map, after_switch]
      · simp [he, ha, hw, Outcome.map, after_switch]

/-- C3 amended, on `je_program` with `register[0] == register[1]`: after the
`JE` at index 0 the next instruction dispatched is index 5, and the whole run
leaves register 2 untouched (the `JE` target, index 4, is not executed). -/
theorem je_jne_landing_witness :
    cycle je_program 1000 ⟨⟨[7, 7, 0], [0, 0, 0, 0], 3⟩, 0, 0⟩
        = .ok (.running ⟨⟨[7, 7, 0], [0, 0, 0, 0], 3⟩, 5, 1⟩)
      ∧ execute_program ⟨[7, 7, 0], [0, 0, 0, 0], 3⟩ je_program 1000 2
        = some (.ok ⟨[7, 7, 0], [0, 0, 0, 0], 3⟩) :=
  ⟨(je_jne_landing je_program 1000 ⟨⟨[7, 7, 0], [0, 0, 0, 0], 3⟩, 0, 0⟩
      (Instruction.mk_op .OP_JE 0 1 0 4 0) 0 rfl rfl (by decide) (by decide) (by decide)
      (by decide) (by decide)).1 rfl,
    by decide⟩

theorem push_ok {pu : ProcessingUnit} {reg : Int} (hr : reg_ok pu reg)
    (h0 : 0 ≤ pu.stack_pointer) (h1 : pu.stack_pointer < pu.memory_size) :
    push pu reg = .ok { pu with
      memory := put pu.memory pu.stack_pointer (cell pu.registers reg)
      stack_pointer := pu.stack_pointer - 1 } := by
  rw [push, check_register_bounds_pass hr, if_pos (by omega), if_pos h1]

theorem pop_ok {pu : ProcessingUnit} {reg : Int} (hr : reg_ok pu reg)
    (h0 : -1 ≤ pu.stack_pointer) (h1 : pu.stack_pointer < pu.memory_size - 1) :
    pop pu reg = .ok { pu with
      stack_pointer := pu.stack_pointer + 1
      registers := put pu.registers reg (cell pu.memory (pu.stack_pointer + 1)) } := by
  rw [pop, check_register_bounds_pass hr, if_pos h1, if_pos (by omega)]

/-- C4: on a machine with `0 <= stack_pointer <= memory_size - 1`, for
registers `r` and `r'` in bounds, `PUSH r` followed by `POP r'` both succeed;
afterwards register `r'` holds what register `r` held before the push, the
stack pointer has its value of before the push, and every other register is
unchanged (the register file is the old one with `r'` overwritten). -/
theorem push_pop_round_trip (pu : ProcessingUnit) (r r' : Int)
    (h0 : 0 ≤ pu.stack_pointer) (h1 : pu.stack_pointer ≤ pu.memory_size - 1)
    (hr : reg_ok pu r) (hr' : reg_ok pu r') :
    ∃ pu1 pu2, push pu r = .ok pu1 ∧ pop pu1 r' = .ok pu2
      ∧ cell pu2.registers r' = cell pu.registers r
      ∧ pu2.stack_pointer = pu.stack_pointer
      ∧ pu2.registers = put pu.registers r' (cell pu.registers r)
      ∧ ∀ q, reg_ok pu q → q ≠ r' → cell pu2.registers q = cell pu.registers q := by
  have hpush := push_ok hr h0 (by omega)
  refine ⟨_, _, hpush, @pop_ok { pu with
      memory := put pu.memory pu.stack_pointer (cell pu.registers r)
      stack_pointer := pu.stack_pointer - 1 } r' ?_ ?_ ?_, ?_⟩
  · exact hr'
  · simp only; omega
  · simp only [ProcessingUnit.memory_size, length_put] at *; omega
  · have hm : cell (put pu.memory pu.stack_pointer (cell pu.registers r))
        (pu.stack_pointer - 1 + 1) = cell pu.registers r := by
      rw [Int.sub_add_cancel]
      exact cell_put_same _ _ _ h0 (by simp only [ProcessingUnit.memory_size] at h1; omega)
    simp only [hm]
    refine ⟨cell_put_same _ _ _ hr'.1 hr'.2, by omega, trivial, ?_⟩
    intro q hq hne
    exact cell_put_other _ _ _ _ hr'.1 hq.1 (Ne.symm hne)

/-- C4 on a machine of 3 registers holding 5, 9, 0 and 4 memory cells:
`PUSH r1` then `POP r2` leaves 9 in register 2. -/
theorem push_pop_round_trip_witness :
    ∃ pu1 pu2, push ⟨[5, 9, 0], [0, 0, 0, 0], 3⟩ 1 = .ok pu1 ∧ pop pu1 2 = .ok pu2
      ∧ cell pu2.registers 2 = cell [5, 9, 0] 1
      ∧ pu2.stack_pointer = 3
      ∧ pu2.registers = put [5, 9, 0] 2 (cell [5, 9, 0] 1)
      ∧ ∀ q, reg_ok ⟨[5, 9, 0], [0, 0, 0, 0], 3⟩ q → q ≠ 2 →
          cell pu2.registers q = cell [5, 9, 0] q :=
  push_pop_round_trip ⟨[5, 9, 0], [0, 0, 0, 0], 3⟩ 1 2 (by decide) (by decide) (by decide)
    (by decide)

/-- C5: for a register `r` in bounds, `PUSH r` exits with `StackOverflow`
exactly when `stack_pointer < 0`, and `POP r` exits with `StackUnderflow`
exactly when `stack_pointer >= memory_size - 1`; at either exit the machine
(registers, memory, stack pointer) is the one the instruction started from. -/
theorem stack_boundaries (pu : ProcessingUnit) (r : Int) (hr : reg_ok pu r) :
    (push pu r = .exit (.StackOverflow r) pu ↔ pu.stack_pointer < 0)
      ∧ (∀ q pu', push pu r = .exit (.StackOverflow q) pu' →
          pu.stack_pointer < 0 ∧ q = r ∧ pu' = pu)
      ∧ (pop pu r = .exit (.StackUnderflow r) pu ↔ pu.stack_pointer ≥ pu.memory_size - 1)
      ∧ (∀ q pu', pop pu r = .exit (.StackUnderflow q) pu' →
          pu.stack_pointer ≥ pu.memory_size - 1 ∧ q = r ∧ pu' = pu) := by
  refine ⟨?_, ?_, ?_, ?_⟩
  · rw [push, check_register_bounds_pass hr]
    split_ifs <;> simp <;> omega
  · intro q pu'
    rw [push, check_register_bounds_pass hr]
    split_ifs <;> simp
    intros
    simp_all
  · rw [pop, check_register_bounds_pass hr]
    split_ifs <;> simp <;> omega
  · intro q pu'
    rw [pop, check_register_bounds_pass hr]
    split_ifs <;> simp
    intros
    simp_all



/-- C5 at the two boundaries: a push with `stack_pointer == -1` exits with
`StackOverflow`, and a pop on the fresh machine of 3 registers and 4 memory
cells (`stack_pointer == memory_size - 1`) exits with `StackUnderflow`. -/
theorem stack_boundaries_witness :
    push ⟨[5, 9, 0], [1, 2, 3, 4], -1⟩ 1
        = .exit (.StackOverflow 1) ⟨[5, 9, 0], [1, 2, 3, 4], -1⟩
      ∧ pop ⟨[0, 0, 0], [0, 0, 0, 0], 3⟩ 1
        = .exit (.StackUnderflow 1) ⟨[0, 0, 0], [0, 0, 0, 0], 3⟩
      ∧ init_unit 3 4 = some ⟨[0, 0, 0], [0, 0, 0, 0], 3⟩ :=
  ⟨(stack_boundaries ⟨[5, 9, 0], [1, 2, 3, 4], -1⟩ 1 (by decide)).1.mpr (by decide),
    (stack_boundaries ⟨[0, 0, 0], [0, 0, 0, 0], 3⟩ 1 (by decide)).2.2.1.mpr (by decide),
    by decide⟩

/-- C6: for registers in bounds, `DIV reg1,reg2,reg3` exits with
`DivisionByZero` if and only if `register[reg2] == 0`; at that exit the
machine, the destination register included, is the one the instruction
started from. With a nonzero divisor the instruction succeeds, except for
`INT_MIN / -1`, where the division itself has no result. -/
theorem divide_by_zero (pu : ProcessingUnit) (reg1 reg2 reg3 : Int)
    (h1 : reg_ok pu reg1) (h2 : reg_ok pu reg2) (h3 : reg_ok pu reg3) :
    (divide pu reg1 reg2 reg3 = .exit .DivisionByZero pu ↔ cell pu.registers reg2 = 0)
      ∧ (∀ pu', divide pu reg1 reg2 reg3 = .exit .DivisionByZero pu' →
          cell pu.registers reg2 = 0 ∧ pu' = pu)
      ∧ (cell pu.registers reg2 ≠ 0 →
          ¬ (cell pu.registers reg1 = -2147483648 ∧ cell pu.registers reg2 = -1) →
          ∃ pu', divide pu reg1 reg2 reg3 = .ok pu')
      ∧ (cell pu.registers reg1 = -2147483648 → cell pu.registers reg2 = -1 →
          divide pu reg1 reg2 reg3 = .exit .UndefinedBehaviour pu) := by
  have hnot : ∀ pu', cell pu.registers reg2 ≠ 0 →
      divide pu reg1 reg2 reg3 ≠ .exit .DivisionByZero pu' := by
    intro pu' hne h
    cases hc : c_div (cell pu.registers reg1) (cell pu.registers reg2) with
    | none => rw [divide_none h1 h2 h3 hne hc] at h; cases h
    | some q => rw [divide_some h1 h2 h3 hne hc] at h; cases h
  refine ⟨?_, ?_, ?_, ?_⟩
  · constructor
    · intro h
      by_contra hne
      exact hnot pu hne h
    · exact divide_zero h1 h2 h3
  · intro pu' h
    by_cases he : cell pu.registers reg2 = 0
    · rw [divide_zero h1 h2 h3 he] at h
      cases h
      exact ⟨he, rfl⟩
    · exact absurd h (hnot pu' he)
  · intro hne hov
    exact ⟨_, divide_some h1 h2 h3 hne (c_div_some _ _ hne hov)⟩
  · intro ha hb
    exact divide_none h1 h2 h3 (by rw [hb]; decide) (by rw [ha, hb]; exact c_div_overflow)

/-- C6 on registers 7, 0, 4: `DIV r0,r1,r2` exits with `DivisionByZero` and
register 2 still holds 4. -/
theorem divide_by_zero_witness :
    divide ⟨[7, 0, 4], [0, 0, 0, 0], 3⟩ 0 1 2
      = .exit .DivisionByZero ⟨[7, 0, 4], [0, 0, 0, 0], 3⟩ :=
  (divide_by_zero ⟨[7, 0, 4], [0, 0, 0, 0], 3⟩ 0 1 2 (by decide) (by decide)
    (by decide)).1.mpr (by decide)

/-- C7: when some register id that the function of the opcode checks is out
of range, the instruction exits with `RegisterOutOfBounds` naming the first
such id in the order reg1, reg2, reg3, whatever else is wrong with the
instruction, and the machine at the exit is the one the instruction started
from. -/
theorem register_bounds_first (pu : ProcessingUnit) (ip : Int) (instr : Instruction)
    (op : Opcode) (hop : Opcode.ofInt instr.opcode = some op) (r : Int)
    (hr : r ∈ checked_registers op instr) (hbad : r < 0 ∨ r ≥ pu.num_registers) :
    ∃ q, (checked_registers op instr).find? (fun x => decide (¬ reg_ok pu x)) = some q
      ∧ (q < 0 ∨ q ≥ pu.num_registers)
      ∧ dispatch pu ip instr = .exit (.RegisterOutOfBounds q) pu := by
  have hbad' : ¬ reg_ok pu r := by unfold reg_ok; omega
  have key : ∀ x, ¬ reg_ok pu x → (x < 0 ∨ x ≥ pu.num_registers) := by
    intro x hx; unfold reg_ok at hx; omega
  by_cases h1 : reg_ok pu instr.reg1 <;> by_cases h2 : reg_ok pu instr.reg2 <;>
    by_cases h3 : reg_ok pu instr.reg3 <;> cases op <;>
    simp [checked_registers] at hr <;>
    simp [checked_registers, List.find?, h1, h2, h3, dispatch, hop, add, subtract, multiply,
      divide, store, load, load_immediate, push, pop, mov, jz, jnz, je, jne, and, or, xor,
      not, shl, shr, cmp, test, Outcome.map, check_register_bounds_pass,
      check_register_bounds_fail, key] <;>
    first
      | done
      | (rcases hr with rfl | rfl | rfl <;> contradiction)



/-- C7 on `DIV r0,r1,r5` with 3 registers and `register[1] == 0`: the exit is
`RegisterOutOfBounds` for register 5, not `DivisionByZero`. -/
theorem register_bounds_first_witness :
    (∃ q, (checked_registers .OP_DIV (Instruction.mk_op .OP_DIV 0 1 5 0 0)).find?
          (fun x => decide (¬ reg_ok ⟨[7, 0, 4], [0, 0, 0, 0], 3⟩ x)) = some q
        ∧ (q < 0 ∨ q ≥ ProcessingUnit.num_registers ⟨[7, 0, 4], [0, 0, 0, 0], 3⟩)
        ∧ dispatch ⟨[7, 0, 4], [0, 0, 0, 0], 3⟩ 0 (Instruction.mk_op .OP_DIV 0 1 5 0 0)
            = .exit (.RegisterOutOfBounds q) ⟨[7, 0, 4], [0, 0, 0, 0], 3⟩)
      ∧ dispatch ⟨[7, 0, 4], [0, 0, 0, 0], 3⟩ 0 (Instruction.mk_op .OP_DIV 0 1 5 0 0)
          = .exit (.RegisterOutOfBounds 5) ⟨[7, 0, 4], [0, 0, 0, 0], 3⟩ :=
  ⟨register_bounds_first ⟨[7, 0, 4], [0, 0, 0, 0], 3⟩ 0 (Instruction.mk_op .OP_DIV 0 1 5 0 0)
      .OP_DIV rfl 5 (by decide) (by decide),
    by decide⟩

/-- C8: for a register `reg` in bounds, `STORE reg,a` and `LOAD a,reg` exit
with `MemoryAddressOutOfBounds` for `a` when `a < 0` or `a >= memory_size`,
the machine at the exit being the one they started from; for
`0 <= a < memory_size` both succeed, `STORE` changing only `memory[a]`, which
becomes `register[reg]`, and `LOAD` changing only `register[reg]`, which
becomes `memory[a]`. -/
theorem address_bounds (pu : ProcessingUnit) (reg a : Int) (hr : reg_ok pu reg) :
    ((a < 0 ∨ a ≥ pu.memory_size) →
        store pu reg a = .exit (.MemoryAddressOutOfBounds a) pu
          ∧ load pu a reg = .exit (.MemoryAddressOutOfBounds a) pu)
      ∧ ((0 ≤ a ∧ a < pu.memory_size) →
        store pu reg a = .ok { pu with memory := put pu.memory a (cell pu.registers reg) }
          ∧ cell (put pu.memory a (cell pu.registers reg)) a = cell pu.registers reg
          ∧ load pu a reg = .ok { pu with registers := put pu.registers reg (cell pu.memory a) }
          ∧ cell (put pu.registers reg (cell pu.memory a)) reg = cell pu.memory a) := by
  constructor
  · intro ha
    rw [store, load, check_register_bounds_pass hr, check_register_bounds_pass hr,
      if_neg (by omega), if_neg (by omega)]
    exact ⟨rfl, rfl⟩
  · intro ha
    rw [store, load, check_register_bounds_pass hr, check_register_bounds_pass hr,
      if_pos (by omega), if_pos (by omega)]
    exact ⟨rfl, cell_put_same _ _ _ ha.1 ha.2, rfl, cell_put_same _ _ _ hr.1 hr.2⟩

/-- C8 on 3 registers and 4 memory cells: address 4 and address -1 are
refused, address 3 is stored to and loaded from. -/
theorem address_bounds_witness :
    (store ⟨[5, 9, 0], [1, 2, 3, 4], 3⟩ 1 4
        = .exit (.MemoryAddressOutOfBounds 4) ⟨[5, 9, 0], [1, 2, 3, 4], 3⟩
      ∧ load ⟨[5, 9, 0], [1, 2, 3, 4], 3⟩ 4 1
        = .exit (.MemoryAddressOutOfBounds 4) ⟨[5, 9, 0], [1, 2, 3, 4], 3⟩)
      ∧ (store ⟨[5, 9, 0], [1, 2, 3, 4], 3⟩ 1 (-1)
        = .exit (.MemoryAddressOutOfBounds (-1)) ⟨[5, 9, 0], [1, 2, 3, 4], 3⟩
      ∧ load ⟨[5, 9, 0], [1, 2, 3, 4], 3⟩ (-1) 1
        = .exit (.MemoryAddressOutOfBounds (-1)) ⟨[5, 9, 0], [1, 2, 3, 4], 3⟩)
      ∧ store ⟨[5, 9, 0], [1, 2, 3, 4], 3⟩ 1 3 = .ok ⟨[5, 9, 0], [1, 2, 3, 9], 3⟩
      ∧ load ⟨[5, 9, 0], [1, 2, 3, 4], 3⟩ 3 1 = .ok ⟨[5, 4, 0], [1, 2, 3, 4], 3⟩ :=
  ⟨(address_bounds ⟨[5, 9, 0], [1, 2, 3, 4], 3⟩ 1 4 (by decide)).1 (by decide),
    (address_bounds ⟨[5, 9, 0], [1, 2, 3, 4], 3⟩ 1 (-1) (by decide)).1 (by decide),
    ((address_bounds ⟨[5, 9, 0], [1, 2, 3, 4], 3⟩ 1 3 (by decide)).2 (by decide)).1,
    ((address_bounds ⟨[5, 9, 0], [1, 2, 3, 4], 3⟩ 1 3 (by decide)).2 (by decide)).2.2.1⟩

theorem preserved_refl (pu : ProcessingUnit) : preserved pu pu := ⟨rfl, rfl, id⟩

theorem preserved_trans {a b c : ProcessingUnit} (h1 : preserved a b) (h2 : preserved b c) :
    preserved a c :=
  ⟨h2.1.trans h1.1, h2.2.1.trans h1.2.1, fun h => h2.2.2 (h1.2.2 h)⟩

theorem dispatch_preserved (pu : ProcessingUnit) (ip : Int) (instr : Instruction) (flow : Flow)
    (h : dispatch pu ip instr = .ok flow) : preserved pu flow.pu := by
  unfold dispatch at h
  split at h <;>
    (try simp only [add, subtract, multiply, divide, c_div, store, load, load_immediate, push,
      pop, mov, jz, jnz, je, jne, and, or, xor, not, shl, shr, cmp, test, jmp,
      check_register_bounds, ProcessingUnit.memory_size, ProcessingUnit.num_registers] at h) <;>
    (try split_ifs at h) <;>
    simp only [Outcome.map, Outcome.ok.injEq, reduceCtorEq] at h <;>
    (try split_ifs at h) <;>
    subst h <;>
    simp [preserved, Flow.pu, sp_ok, length_put, ProcessingUnit.memory_size] <;>
    omega


theorem cycle_preserved (program : List Instruction) (mic : Int) (s : EngineState) :
    (∀ s', cycle program mic s = .ok (.running s') → preserved s.pu s'.pu)
      ∧ (∀ pu', cycle program mic s = .ok (.returned pu') → preserved s.pu pu') := by
  unfold cycle
  split_ifs
  · simp
  · simp
  · split
    · simp
    · rename_i instr _
      cases hd : dispatch s.pu s.instruction_pointer instr with
      | exit f pu => simp [after_switch]
      | ok flow =>
        have hp := dispatch_preserved _ _ _ _ hd
        cases flow <;> simp only [after_switch, Flow.pu] at * <;> constructor <;> intro x hx <;>
          simp at hx <;> subst hx <;> exact hp
  · constructor
    · intro s' h; simp at h
    · intro pu' h
      simp at h
      subst h
      exact preserved_refl _

theorem cycles_preserved (program : List Instruction) (mic : Int) (k : Nat) :
    ∀ s s', cycles program mic k s = some s' → preserved s.pu s'.pu := by
  induction k with
  | zero =>
    intro s s' h
    simp only [cycles, Option.some.injEq] at h
    subst h
    exact preserved_refl _
  | succ k ih =>
    intro s s' h
    rw [cycles] at h
    split at h
    · rename_i s1 hc
      exact preserved_trans ((cycle_preserved program mic s).1 s1 hc) (ih s1 s' h)
    · cases h

theorem execute_loop_preserved (program : List Instruction) (mic : Int) (fuel : Nat) :
    ∀ s pu', execute_loop program mic fuel s = some (.ok pu') → preserved s.pu pu' := by
  induction fuel with
  | zero => intro s pu' h; simp [execute_loop] at h
  | succ fuel ih =>
    intro s pu' h
    rw [execute_loop] at h
    split at h
    · simp at h
    · rename_i pu1 hc
      simp only [Option.some.injEq, Outcome.ok.injEq] at h
      subst h
      exact (cycle_preserved program mic s).2 _ hc
    · rename_i s1 hc
      exact preserved_trans ((cycle_preserved program mic s).1 s1 hc) (ih s1 pu' h)

/-- C9: a machine created with `memory_size >= 1` has
`stack_pointer = memory_size - 1`; every instruction that executes
successfully keeps `-1 <= stack_pointer <= memory_size - 1` and the lengths
of the register file and of memory; so every engine state reached while
running a program on the fresh machine, and the machine a run returns,
satisfy the bounds and have `num_registers` registers and `memory_size`
memory cells. -/
theorem stack_pointer_invariant (n m : Int) (pu : ProcessingUnit) (hm : 1 ≤ m)
    (hinit : init_unit n m = some pu) :
    pu.stack_pointer = m - 1 ∧ pu.num_registers = n ∧ pu.memory_size = m ∧ sp_ok pu
      ∧ (∀ (pu1 : ProcessingUnit) (ip : Int) (instr : Instruction) (flow : Flow),
          sp_ok pu1 → dispatch pu1 ip instr = .ok flow →
            sp_ok flow.pu ∧ flow.pu.num_registers = pu1.num_registers
              ∧ flow.pu.memory_size = pu1.memory_size)
      ∧ (∀ (program : List Instruction) (mic : Int) (k : Nat) (s : EngineState),
          cycles program mic k ⟨pu, 0, 0⟩ = some s →
            sp_ok s.pu ∧ s.pu.num_registers = n ∧ s.pu.memory_size = m)
      ∧ (∀ (program : List Instruction) (mic : Int) (fuel : Nat) (pu' : ProcessingUnit),
          execute_program pu program mic fuel = some (.ok pu') →
            sp_ok pu' ∧ pu'.num_registers = n ∧ pu'.memory_size = m) := by
  have hfresh : pu.stack_pointer = m - 1 ∧ pu.num_registers = n ∧ pu.memory_size = m := by
    unfold init_unit at hinit
    split_ifs at hinit with hneg
    simp only [Option.some.injEq] at hinit
    subst hinit
    simp [ProcessingUnit.num_registers, ProcessingUnit.memory_size]
    omega
  have hsp : sp_ok pu := by
    unfold sp_ok
    omega
  refine ⟨hfresh.1, hfresh.2.1, hfresh.2.2, hsp, ?_, ?_, ?_⟩
  · intro pu1 ip instr flow h1 hd
    have hp := dispatch_preserved _ _ _ _ hd
    exact ⟨hp.2.2 h1, by simp [ProcessingUnit.num_registers, hp.1],
      by simp [ProcessingUnit.memory_size, hp.2.1]⟩
  · intro program mic k s hk
    have hp := cycles_preserved program mic k _ _ hk
    refine ⟨hp.2.2 hsp, ?_, ?_⟩
    · rw [← hfresh.2.1]; simp [ProcessingUnit.num_registers, hp.1]
    · rw [← hfresh.2.2]; simp [ProcessingUnit.memory_size, hp.2.1]
  · intro program mic fuel pu' hk
    have hp := execute_loop_preserved program mic fuel _ _ hk
    refine ⟨hp.2.2 hsp, ?_, ?_⟩
    · rw [← hfresh.2.1]; simp [ProcessingUnit.num_registers, hp.1]
    · rw [← hfresh.2.2]; simp [ProcessingUnit.memory_size, hp.2.1]

/-- C9 on the fresh machine of 3 registers and 4 memory cells. -/
theorem stack_pointer_invariant_witness :
    ProcessingUnit.stack_pointer ⟨[0, 0, 0], [0, 0, 0, 0], 3⟩ = 4 - 1
      ∧ ProcessingUnit.num_registers ⟨[0, 0, 0], [0, 0, 0, 0], 3⟩ = 3
      ∧ ProcessingUnit.memory_size ⟨[0, 0, 0], [0, 0, 0, 0], 3⟩ = 4
      ∧ sp_ok ⟨[0, 0, 0], [0, 0, 0, 0], 3⟩
      ∧ (∀ (pu1 : ProcessingUnit) (ip : Int) (instr : Instruction) (flow : Flow),
          sp_ok pu1 → dispatch pu1 ip instr = .ok flow →
            sp_ok flow.pu ∧ flow.pu.num_registers = pu1.num_registers
              ∧ flow.pu.memory_size = pu1.memory_size)
      ∧ (∀ (program : List Instruction) (mic : Int) (k : Nat) (s : EngineState),
          cycles program mic k ⟨⟨[0, 0, 0], [0, 0, 0, 0], 3⟩, 0, 0⟩ = some s →
            sp_ok s.pu ∧ s.pu.num_registers = 3 ∧ s.pu.memory_size = 4)
      ∧ (∀ (program : List Instruction) (mic : Int) (fuel : Nat) (pu' : ProcessingUnit),
          execute_program ⟨[0, 0, 0], [0, 0, 0, 0], 3⟩ program mic fuel = some (.ok pu') →
            sp_ok pu' ∧ pu'.num_registers = 3 ∧ pu'.memory_size = 4) :=
  stack_pointer_invariant 3 4 ⟨[0, 0, 0], [0, 0, 0, 0], 3⟩ (by decide) (by decide)

theorem copy_cells_spec (src : List Int) (base : Int) (h0 : 0 ≤ base) (n : Nat) :
    base + n ≤ src.length →
      ∃ l, copy_cells src base n = some l ∧ l.length = n
        ∧ ∀ i : Nat, i < n → l[i]? = src[(base + i).toNat]? := by
  induction n with
  | zero => intro _; exact ⟨[], rfl, rfl, fun i hi => absurd hi (Nat.not_lt_zero i)⟩
  | succ n ih =>
    intro hle
    obtain ⟨l, hl, hlen, hget⟩ := ih (by push_cast at hle; omega)
    have hin : 0 ≤ base + n ∧ base + n < src.length := by push_cast at hle; omega
    refine ⟨l ++ [cell src (base + n)], ?_, by simp [hlen], ?_⟩
    · rw [copy_cells, hl]
      simp only [hin, and_self, if_true]
    · intro i hi
      rcases Nat.lt_or_ge i n with hlt | hge
      · rw [List.getElem?_append_left (by omega)]
        exact hget i hlt
      · have hi' : i = n := by omega
        subst hi'
        have hnat : (base + (i : Int)).toNat < src.length := by omega
        rw [List.getElem?_append_right (by omega)]
        simp [hlen, cell, List.getD_eq_getElem?_getD, List.getElem?_eq_getElem hnat]

/-- C10: when `execute_program` has returned (by `HALT` or by the instruction
pointer reaching `program_size`) with `-1 <= stack_pointer <= memory_size - 1`,
`run` succeeds; the registers it hands back are the final register file
(`num_registers` values), and the stack it hands back has
`memory_size - stack_pointer - 1` values, the one at index `i` being
`memory[stack_pointer + 1 + i]`, a cell of memory. -/
theorem snapshot_extraction (pu0 : ProcessingUnit) (program : List Instruction) (mic : Int)
    (fuel : Nat) (pu : ProcessingUnit)
    (hex : execute_program pu0 program mic fuel = some (.ok pu)) (hsp : sp_ok pu) :
    ∃ st, run pu0 program mic fuel = some (.ok st)
      ∧ st.registers = pu.registers
      ∧ (st.registers.length : Int) = pu.num_registers
      ∧ st.stack_size = pu.memory_size - pu.stack_pointer - 1
      ∧ (st.stack.length : Int) = pu.memory_size - pu.stack_pointer - 1
      ∧ ∀ i : Nat, i < st.stack.length →
          0 ≤ pu.stack_pointer + 1 + i ∧ pu.stack_pointer + 1 + i < pu.memory_size
            ∧ st.stack[i]? = pu.memory[(pu.stack_pointer + 1 + i).toNat]?
            ∧ st.stack[i]? = some (cell pu.memory (pu.stack_pointer + 1 + i)) := by
  obtain ⟨h1, h2⟩ := hsp
  have hms : pu.memory_size = pu.memory.length := rfl
  obtain ⟨l, hl, hlen, hget⟩ := copy_cells_spec pu.memory (pu.stack_pointer + 1) (by omega)
    (pu.memory_size - pu.stack_pointer - 1).toNat (by omega)
  refine ⟨⟨pu.registers, l, pu.memory_size - pu.stack_pointer - 1⟩, ?_, rfl, rfl, rfl, ?_, ?_⟩
  · rw [run, hex]
    simp only [capture]
    rw [if_neg (by omega), hl]
  · simp only [hlen]; omega
  · intro i hi
    simp only [hlen] at hi
    have hb : 0 ≤ pu.stack_pointer + 1 + i ∧ pu.stack_pointer + 1 + i < pu.memory_size := by
      omega
    have hnat : (pu.stack_pointer + 1 + (i : Int)).toNat < pu.memory.length := by omega
    refine ⟨hb.1, hb.2, hget i hi, ?_⟩
    rw [hget i hi]
    simp [cell, List.getD_eq_getElem?_getD, List.getElem?_eq_getElem hnat]

/-- C10 on `push_program`, run on 3 registers and 4 memory cells: the stack
handed back is `memory[2..3]`, that is `[22, 11]`. -/
theorem snapshot_extraction_witness :
    (∃ st, run ⟨[0, 0, 0], [0, 0, 0, 0], 3⟩ push_program 1000 5 = some (.ok st)
      ∧ st.registers = [11, 22, 0]
      ∧ (st.registers.length : Int) = ProcessingUnit.num_registers ⟨[11, 22, 0], [0, 0, 22, 11], 1⟩
      ∧ st.stack_size = ProcessingUnit.memory_size ⟨[11, 22, 0], [0, 0, 22, 11], 1⟩ - 1 - 1
      ∧ (st.stack.length : Int)
          = ProcessingUnit.memory_size ⟨[11, 22, 0], [0, 0, 22, 11], 1⟩ - 1 - 1
      ∧ ∀ i : Nat, i < st.stack.length →
          0 ≤ (1 : Int) + 1 + i
            ∧ (1 : Int) + 1 + i < ProcessingUnit.memory_size ⟨[11, 22, 0], [0, 0, 22, 11], 1⟩
            ∧ st.stack[i]? = [(0 : Int), 0, 22, 11][((1 : Int) + 1 + i).toNat]?
            ∧ st.stack[i]? = some (cell [0, 0, 22, 11] (1 + 1 + i)))
      ∧ run ⟨[0, 0, 0], [0, 0, 0, 0], 3⟩ push_program 1000 5
          = some (.ok ⟨[11, 22, 0], [22, 11], 2⟩) :=
  ⟨snapshot_extraction ⟨[0, 0, 0], [0, 0, 0, 0], 3⟩ push_program 1000 5
      ⟨[11, 22, 0], [0, 0, 22, 11], 1⟩ (by decide) (by decide),
    by decide⟩

theorem capture_spec (pu : ProcessingUnit) (hsp : sp_ok pu) :
    ∃ l, capture pu = .ok ⟨pu.registers, l, pu.memory_size - pu.stack_pointer - 1⟩
      ∧ (l.length : Int) = pu.memory_size - pu.stack_pointer - 1
      ∧ ∀ i : Nat, i < l.length → l[i]? = pu.memory[(pu.stack_pointer + 1 + i).toNat]? := by
  obtain ⟨h1, h2⟩ := hsp
  have hms : pu.memory_size = pu.memory.length := rfl
  obtain ⟨l, hl, hlen, hget⟩ := copy_cells_spec pu.memory (pu.stack_pointer + 1) (by omega)
    (pu.memory_size - pu.stack_pointer - 1).toNat (by omega)
  refine ⟨l, ?_, by omega, fun i hi => hget i (by omega)⟩
  simp only [capture]
  rw [if_neg (by omega), hl]

theorem cell_getElem (xs : List Int) (i : Int) (h0 : 0 ≤ i) (h1 : i < xs.length) :
    xs[i.toNat]? = some (cell xs i) := by
  have hnat : i.toNat < xs.length := by omega
  unfold cell
  rw [List.getD_eq_getElem?_getD, List.getElem?_eq_getElem hnat]
  rfl

theorem capture_push (pu : ProcessingUnit) (r : Int) (hsp : sp_ok pu)
    (h0 : 0 ≤ pu.stack_pointer) :
    ∃ st, capture pu = .ok st
      ∧ st.registers = pu.registers
      ∧ capture { pu with
            memory := put pu.memory pu.stack_pointer (cell pu.registers r)
            stack_pointer := pu.stack_pointer - 1 }
          = .ok ⟨pu.registers, cell pu.registers r :: st.stack, st.stack_size + 1⟩ := by
  have hms : pu.memory_size = pu.memory.length := rfl
  have hsp1 : sp_ok { pu with
      memory := put pu.memory pu.stack_pointer (cell pu.registers r)
      stack_pointer := pu.stack_pointer - 1 } := by
    have := hsp.2
    simp only [sp_ok, ProcessingUnit.memory_size, length_put] at *
    omega
  obtain ⟨l, hl, hlen, hget⟩ := capture_spec pu hsp
  obtain ⟨l1, hl1, hlen1, hget1⟩ := capture_spec _ hsp1
  simp only [ProcessingUnit.memory_size, length_put] at hlen1 hget1 hlen
  have hcons : l1 = cell pu.registers r :: l := by
    apply List.ext_getElem?
    intro i
    rcases Nat.lt_or_ge i l1.length with hi | hi
    · rw [hget1 i hi]
      cases i with
      | zero =>
        have hnat : pu.stack_pointer.toNat < pu.memory.length := by
          have := hsp.2
          omega
        simp [put, List.getElem?_set, hnat]
      | succ j =>
        have hj : j < l.length := by omega
        have hidx : (pu.stack_pointer - 1 + 1 + ((j + 1 : Nat) : Int)).toNat
            = (pu.stack_pointer + 1 + (j : Int)).toNat := by omega
        have hne : pu.stack_pointer.toNat ≠ (pu.stack_pointer + 1 + (j : Int)).toNat := by omega
        rw [hidx, List.getElem?_cons_succ, hget j hj]
        simp [put, List.getElem?_set, hne]
    · rw [List.getElem?_eq_none hi, List.getElem?_eq_none]
      simp only [List.length_cons]
      omega
  refine ⟨_, hl, rfl, ?_⟩
  rw [hl1, hcons]
  simp only [ProcessingUnit.memory_size, length_put]
  congr 2
  omega

theorem cycle_push {program : List Instruction} {mic : Int} {s : EngineState}
    {instr : Instruction} (i : Nat) (hi : s.instruction_pointer = i)
    (hf : program[i]? = some instr) (hc : s.instruction_count < mic)
    (hop : instr.opcode = Opcode.OP_PUSH.toInt) (hr : reg_ok s.pu instr.reg1)
    (h0 : 0 ≤ s.pu.stack_pointer) (h1 : s.pu.stack_pointer < s.pu.memory_size) :
    cycle program mic s = .ok (.running ⟨{ s.pu with
        memory := put s.pu.memory s.pu.stack_pointer (cell s.pu.registers instr.reg1)
        stack_pointer := s.pu.stack_pointer - 1 },
      s.instruction_pointer + 1, s.instruction_count + 1⟩) := by
  have ho : Opcode.ofInt instr.opcode = some .OP_PUSH := by rw [hop]; rfl
  rw [cycle_fetch i hi hf hc]
  simp only [dispatch, ho, push_ok hr h0 h1, Outcome.map, after_switch]

theorem push_two_from (pu : ProcessingUnit) (mic : Int) (f : Nat) (hmic : 5 ≤ mic)
    (hr0 : reg_ok pu 0) (hr1 : reg_ok pu 1) (hsp : sp_ok pu) (h1 : 1 ≤ pu.stack_pointer) :
    ∃ st pu4, capture pu = .ok st
      ∧ execute_loop push_two_program mic (f + 3) ⟨pu, 2, 2⟩ = some (.ok pu4)
      ∧ capture pu4 = .ok ⟨pu.registers,
          cell pu.registers 1 :: cell pu.registers 0 :: st.stack, st.stack_size + 1 + 1⟩ := by
  have hms : pu.memory_size = pu.memory.length := rfl
  have hsp2 := hsp.2
  have c2 : cycle push_two_program mic ⟨pu, 2, 2⟩
      = .ok (.running ⟨⟨pu.registers, put pu.memory pu.stack_pointer (cell pu.registers 0),
          pu.stack_pointer - 1⟩, 3, 3⟩) :=
    @cycle_push push_two_program mic ⟨pu, 2, 2⟩
      (Instruction.mk_op .OP_PUSH 0 0 0 0 0) 2 rfl rfl (by simp only; omega) rfl hr0
      (by simp only; omega) (by simp only; omega)
  have hr1' : reg_ok ⟨pu.registers, put pu.memory pu.stack_pointer (cell pu.registers 0),
      pu.stack_pointer - 1⟩ 1 := hr1
  have hsp3 : sp_ok ⟨pu.registers, put pu.memory pu.stack_pointer (cell pu.registers 0),
      pu.stack_pointer - 1⟩ := by
    simp only [sp_ok, ProcessingUnit.memory_size, length_put] at *
    omega
  have c3 : cycle push_two_program mic
      ⟨⟨pu.registers, put pu.memory pu.stack_pointer (cell pu.registers 0),
        pu.stack_pointer - 1⟩, 3, 3⟩
      = .ok (.running ⟨⟨pu.registers,
          put (put pu.memory pu.stack_pointer (cell pu.registers 0)) (pu.stack_pointer - 1)
            (cell pu.registers 1),
          pu.stack_pointer - 1 - 1⟩, 4, 4⟩) :=
    @cycle_push push_two_program mic
      ⟨⟨pu.registers, put pu.memory pu.stack_pointer (cell pu.registers 0),
        pu.stack_pointer - 1⟩, 3, 3⟩
      (Instruction.mk_op .OP_PUSH 1 0 0 0 0) 3 rfl rfl (by simp only; omega) rfl hr1'
      (by simp only; omega)
      (by simp only [ProcessingUnit.memory_size, length_put] at *; omega)
  have c4 : ∀ pu4 : ProcessingUnit, cycle push_two_program mic ⟨pu4, 4, 4⟩
      = .ok (.returned pu4) := by
    intro pu4
    rw [@cycle_fetch push_two_program mic _ (Instruction.mk_op .OP_HALT 0 0 0 0 0) 4 rfl rfl
      (by simp only; omega)]
    rfl
  obtain ⟨st, hst, -, hcap3⟩ := capture_push pu 0 hsp (by omega)
  obtain ⟨st3, hst3, -, hcap4⟩ := capture_push _ 1 hsp3 (by simp only; omega)
  rw [hcap3] at hst3
  cases hst3
  refine ⟨st, _, hst, ?_, hcap4⟩
  rw [execute_loop_running c2, execute_loop_running c3, execute_loop_returned (c4 _)]

/-- C11, counterexample: on the fresh machine of 2 registers and 2 memory
cells, pushing 1 and then 2 and halting gives the stack `[2, 1]`: index 0
holds 2, the value pushed last, and not 1, the value pushed first. -/
theorem snapshot_stack_order_counterexample :
    ∃ pu st, init_unit 2 2 = some pu
      ∧ run pu push_two_program 1000 5 = some (.ok st)
      ∧ st.stack = [2, 1] ∧ st.stack[0]? ≠ some 1 :=
  ⟨⟨[0, 0], [0, 0], 1⟩, ⟨[1, 2], [2, 1], 2⟩, by decide, by decide, by decide, by decide⟩

/-- C11, amended: the stack handed back lists the stack from its top. After a
run that started with the stack pointer in bounds, returned and left at least
one value on the stack, index 0 holds `memory[stack_pointer + 1]`, the value
a `POP` executed next would load, and the last index holds
`memory[memory_size - 1]`, the bottom cell. On a machine with
`0 <= stack_pointer <= memory_size - 1`, the capture after `PUSH r` is the
capture before it with the pushed value put in front: index 0 holds the value
just pushed and every earlier entry moves one index up, so the deepest entry
is the last one. On a fresh machine of at least 2 registers and 2 memory
cells, with a limit of at least 5, `push_two_program` (push 1, push 2, halt)
hands back the stack `[2, 1]`. -/
theorem snapshot_stack_top_first (pu0 : ProcessingUnit) (program : List Instruction)
    (mic : Int) (fuel : Nat) (pu : ProcessingUnit) (hsp0 : sp_ok pu0)
    (hex : execute_program pu0 program mic fuel = some (.ok pu))
    (hne : pu.stack_pointer < pu.memory_size - 1) :
    (∃ st, run pu0 program mic fuel = some (.ok st)
        ∧ st.stack[0]? = some (cell pu.memory (pu.stack_pointer + 1))
        ∧ st.stack[st.stack.length - 1]? = some (cell pu.memory (pu.memory_size - 1))
        ∧ ∀ r, reg_ok pu r →
            ∃ pu', pop pu r = .ok pu' ∧ st.stack[0]? = some (cell pu'.registers r))
      ∧ (∀ (pu1 : ProcessingUnit) (r : Int), sp_ok pu1 → 0 ≤ pu1.stack_pointer →
          reg_ok pu1 r →
          ∃ pu2 st1 st2, push pu1 r = .ok pu2 ∧ capture pu1 = .ok st1 ∧ capture pu2 = .ok st2
            ∧ st2.stack = cell pu1.registers r :: st1.stack
            ∧ st2.stack[0]? = some (cell pu1.registers r)
            ∧ ∀ i : Nat, st2.stack[i + 1]? = st1.stack[i]?)
      ∧ (∀ (n m lim : Int) (gas : Nat), 2 ≤ n → 2 ≤ m → 5 ≤ lim → 5 ≤ gas →
          ∃ fresh, init_unit n m = some fresh
            ∧ run fresh push_two_program lim gas
              = some (.ok ⟨1 :: 2 :: List.replicate (n - 2).toNat 0, [2, 1], 2⟩)) := by
  refine ⟨?_, ?_, ?_⟩
  · have hsp : sp_ok pu := (execute_loop_preserved program mic fuel _ _ hex).2.2 hsp0
    have hms : pu.memory_size = pu.memory.length := rfl
    obtain ⟨l, hl, hlen, hget⟩ := capture_spec pu hsp
    have hpos : 0 < l.length := by omega
    have hnat : (pu.stack_pointer + 1).toNat < pu.memory.length := by
      have := hsp.1
      omega
    have h0 : l[0]? = some (cell pu.memory (pu.stack_pointer + 1)) := by
      rw [hget 0 hpos]
      simp [cell, List.getD_eq_getElem?_getD, List.getElem?_eq_getElem hnat]
    have hlast : l[l.length - 1]? = some (cell pu.memory (pu.memory_size - 1)) := by
      have hidx : (pu.stack_pointer + 1 + ((l.length - 1 : Nat) : Int)).toNat
          = (pu.memory_size - 1).toNat := by omega
      rw [hget (l.length - 1) (by omega), hidx]
      exact cell_getElem _ _ (by omega) (by omega)
    refine ⟨⟨pu.registers, l, pu.memory_size - pu.stack_pointer - 1⟩,
      by rw [run, hex]; simp only [hl], h0, hlast, ?_⟩
    intro r hr
    refine ⟨_, pop_ok hr hsp.1 hne, ?_⟩
    simp only
    rw [h0, cell_put_same _ _ _ hr.1 hr.2]
  · intro pu1 r hsp1 h0 hr
    have hlt : pu1.stack_pointer < pu1.memory_size := by have := hsp1.2; omega
    obtain ⟨st, hst, -, hcap⟩ := capture_push pu1 r hsp1 h0
    refine ⟨_, st, _, push_ok hr h0 hlt, hst, hcap, rfl, ?_, ?_⟩
    · simp
    · intro i
      simp
  · intro n m lim gas hn hm hlim hgas
    obtain ⟨k, rfl⟩ : ∃ k : Nat, n = ((k + 2 : Nat) : Int) := ⟨(n - 2).toNat, by omega⟩
    obtain ⟨j, rfl⟩ : ∃ j : Nat, m = ((j + 2 : Nat) : Int) := ⟨(m - 2).toNat, by omega⟩
    obtain ⟨f, rfl⟩ : ∃ f : Nat, gas = f + 3 + 2 := ⟨gas - 5, by omega⟩
    refine ⟨_, init_unit_ofNat _ _, ?_⟩
    have hk : ¬ ((k : Int) + 1 + 1 ≤ 0) := by omega
    have hk1 : ¬ ((k : Int) + 1 + 1 ≤ 1) := by omega
    have c0 : cycle push_two_program lim
        ⟨⟨List.replicate (k + 2) 0, List.replicate (j + 2) 0, ((j + 2 : Nat) : Int) - 1⟩, 0, 0⟩
        = .ok (.running ⟨⟨1 :: 0 :: List.replicate k 0, List.replicate (j + 2) 0,
            ((j + 2 : Nat) : Int) - 1⟩, 1, 1⟩) := by
      rw [cycle_fetch 0 rfl rfl (by simpa using (by omega : 0 < lim))]
      simp [dispatch, push_two_program, Instruction.mk_op, Opcode.toInt, Opcode.ofInt,
        load_immediate, check_register_bounds, ProcessingUnit.num_registers, Outcome.map,
        after_switch, put, List.replicate_succ, hk]
    have c1 : cycle push_two_program lim
        ⟨⟨1 :: 0 :: List.replicate k 0, List.replicate (j + 2) 0,
          ((j + 2 : Nat) : Int) - 1⟩, 1, 1⟩
        = .ok (.running ⟨⟨1 :: 2 :: List.replicate k 0, List.replicate (j + 2) 0,
            ((j + 2 : Nat) : Int) - 1⟩, 2, 2⟩) := by
      rw [cycle_fetch 1 rfl rfl (by simpa using (by omega : 1 < lim))]
      simp [dispatch, push_two_program, Instruction.mk_op, Opcode.toInt, Opcode.ofInt,
        load_immediate, check_register_bounds, ProcessingUnit.num_registers, Outcome.map,
        after_switch, put, hk1]
    have hcap2 : capture ⟨1 :: 2 :: List.replicate k 0, List.replicate (j + 2) 0,
        ((j + 2 : Nat) : Int) - 1⟩ = .ok ⟨1 :: 2 :: List.replicate k 0, [], 0⟩ := by
      simp [capture, ProcessingUnit.memory_size, copy_cells]
    obtain ⟨st, pu4, hst, hloop, hcap4⟩ := push_two_from
      ⟨1 :: 2 :: List.replicate k 0, List.replicate (j + 2) 0, ((j + 2 : Nat) : Int) - 1⟩
      lim f hlim
      (by simp [reg_ok, ProcessingUnit.num_registers]; omega)
      (by simp [reg_ok, ProcessingUnit.num_registers])
      (by simp [sp_ok, ProcessingUnit.memory_size]; omega)
      (by simp only; omega)
    rw [hcap2] at hst
    cases hst
    have hregs : (↑(k + 2) - 2 : Int).toNat = k := by omega
    rw [run, execute_program, execute_loop_running c0, execute_loop_running c1, hloop]
    simp only [hcap4, hregs]
    simp [cell]

/-- C11 amended, on `push_program` (push 11, push 22, halt) run on the fresh
machine of 3 registers and 4 memory cells: index 0 of the stack handed back
is 22, `memory[2]`, which a `POP r2` executed next would load. -/
theorem snapshot_stack_top_first_witness :
    (∃ st, run ⟨[0, 0, 0], [0, 0, 0, 0], 3⟩ push_program 1000 5 = some (.ok st)
        ∧ st.stack[0]? = some (cell [0, 0, 22, 11] (1 + 1))
        ∧ st.stack[st.stack.length - 1]? = some (cell [0, 0, 22, 11]
            (ProcessingUnit.memory_size ⟨[11, 22, 0], [0, 0, 22, 11], 1⟩ - 1))
        ∧ ∀ r, reg_ok ⟨[11, 22, 0], [0, 0, 22, 11], 1⟩ r →
            ∃ pu', pop ⟨[11, 22, 0], [0, 0, 22, 11], 1⟩ r = .ok pu'
              ∧ st.stack[0]? = some (cell pu'.registers r))
      ∧ run ⟨[0, 0, 0], [0, 0, 0, 0], 3⟩ push_program 1000 5
          = some (.ok ⟨[11, 22, 0], [22, 11], 2⟩)
      ∧ pop ⟨[11, 22, 0], [0, 0, 22, 11], 1⟩ 2 = .ok ⟨[11, 22, 22], [0, 0, 22, 11], 2⟩ :=
  ⟨(snapshot_stack_top_first ⟨[0, 0, 0], [0, 0, 0, 0], 3⟩ push_program 1000 5
      ⟨[11, 22, 0], [0, 0, 22, 11], 1⟩ (by decide) (by decide) (by decide)).1,
    by decide, by decide⟩

theorem tdiv_bounds (a b : Int) :
    (Int.tdiv a b).natAbs = a.natAbs / b.natAbs
      ∧ (0 ≤ a → 0 < b → 0 ≤ Int.tdiv a b)
      ∧ (a ≤ 0 → b < 0 → 0 ≤ Int.tdiv a b)
      ∧ (0 ≤ a → b < 0 → Int.tdiv a b ≤ 0)
      ∧ (a ≤ 0 → 0 < b → Int.tdiv a b ≤ 0) := by
  refine ⟨Int.natAbs_tdiv a b, ?_, ?_, ?_, ?_⟩
  · intro ha hb
    exact Int.tdiv_nonneg ha (by omega)
  · intro ha hb
    have h := @Int.tdiv_nonneg (-a) (-b) (by omega) (by omega)
    rwa [Int.neg_tdiv_neg] at h
  · intro ha hb
    exact Int.tdiv_nonpos ha (by omega)
  · intro ha hb
    have h := @Int.tdiv_nonneg (-a) b (by omega) (by omega)
    rw [Int.neg_tdiv] at h
    omega

theorem tdiv_int32 (a b : Int) (ha : is_int32 a)
    (hov : ¬ (a = -2147483648 ∧ b = -1)) : is_int32 (Int.tdiv a b) := by
  have hn := Int.natAbs_tdiv a b
  have hle : a.natAbs / b.natAbs ≤ a.natAbs := Nat.div_le_self _ _
  change (Int.tdiv a b).natAbs = a.natAbs / b.natAbs at hn
  unfold is_int32 at *
  by_cases hb1 : b = -1
  · subst hb1
    have h := Int.tdiv_neg a 1
    rw [Int.tdiv_one] at h
    omega
  · by_cases hb2 : b = 1
    · subst hb2
      rw [Int.tdiv_one]
      exact ha
    · by_cases hb0 : b = 0
      · subst hb0
        simp
      · have h2 : 2 ≤ b.natAbs := by omega
        have hhalf : a.natAbs / b.natAbs ≤ a.natAbs / 2 :=
          Nat.div_le_div_left h2 (by decide)
        omega

/-- C12: for registers in bounds, a dividend that is a 32-bit value, a nonzero
divisor, and not `INT_MIN / -1`, `DIV reg1,reg2,reg3` succeeds and changes
only `register[reg3]`, which becomes the quotient `q` of the two values read
before the write, truncated toward zero: the magnitude of `q` is the
magnitude of the dividend divided (rounding down) by that of the divisor, and
`q` is not negative when the signs agree and not positive when they differ. -/
theorem divide_truncates (pu : ProcessingUnit) (reg1 reg2 reg3 : Int)
    (h1 : reg_ok pu reg1) (h2 : reg_ok pu reg2) (h3 : reg_ok pu reg3)
    (ha : is_int32 (cell pu.registers reg1)) (hb : cell pu.registers reg2 ≠ 0)
    (hov : ¬ (cell pu.registers reg1 = -2147483648 ∧ cell pu.registers reg2 = -1)) :
    ∃ q, divide pu reg1 reg2 reg3 = .ok { pu with registers := put pu.registers reg3 q }
      ∧ q = Int.tdiv (cell pu.registers reg1) (cell pu.registers reg2)
      ∧ q.natAbs = (cell pu.registers reg1).natAbs / (cell pu.registers reg2).natAbs
      ∧ (0 ≤ cell pu.registers reg1 → 0 < cell pu.registers reg2 → 0 ≤ q)
      ∧ (cell pu.registers reg1 ≤ 0 → cell pu.registers reg2 < 0 → 0 ≤ q)
      ∧ (0 ≤ cell pu.registers reg1 → cell pu.registers reg2 < 0 → q ≤ 0)
      ∧ (cell pu.registers reg1 ≤ 0 → 0 < cell pu.registers reg2 → q ≤ 0)
      ∧ cell (put pu.registers reg3 q) reg3 = q
      ∧ ∀ r, reg_ok pu r → r ≠ reg3 → cell (put pu.registers reg3 q) r = cell pu.registers r := by
  obtain ⟨hn, hpp, hnn, hpn, hnp⟩ := tdiv_bounds (cell pu.registers reg1) (cell pu.registers reg2)
  refine ⟨Int.tdiv (cell pu.registers reg1) (cell pu.registers reg2), ?_, rfl, hn, hpp, hnn,
    hpn, hnp, cell_put_same _ _ _ h3.1 h3.2, ?_⟩
  · refine divide_some h1 h2 h3 hb ?_
    rw [c_div_some _ _ hb hov, wrap32_of_int32 _ (tdiv_int32 _ _ ha hov)]
  · intro r hr hne
    exact cell_put_other _ _ _ _ h3.1 hr.1 (Ne.symm hne)

/-- C12 on the four sign combinations of 7 and 2, the quotient written over
the dividend: `-7 / 2 = -3`, `7 / -2 = -3`, `-7 / -2 = 3`, `7 / 2 = 3`. -/
theorem divide_truncates_witness :
    (∃ q, divide ⟨[-7, 2], [0], 0⟩ 0 1 0 = .ok ⟨put [-7, 2] 0 q, [0], 0⟩
      ∧ q = Int.tdiv (cell [-7, 2] 0) (cell [-7, 2] 1)
      ∧ q.natAbs = (cell [-7, 2] 0).natAbs / (cell [-7, 2] 1).natAbs
      ∧ (0 ≤ cell [-7, 2] 0 → 0 < cell [-7, 2] 1 → 0 ≤ q)
      ∧ (cell [-7, 2] 0 ≤ 0 → cell [-7, 2] 1 < 0 → 0 ≤ q)
      ∧ (0 ≤ cell [-7, 2] 0 → cell [-7, 2] 1 < 0 → q ≤ 0)
      ∧ (cell [-7, 2] 0 ≤ 0 → 0 < cell [-7, 2] 1 → q ≤ 0)
      ∧ cell (put [-7, 2] 0 q) 0 = q
      ∧ ∀ r, reg_ok ⟨[-7, 2], [0], 0⟩ r → r ≠ 0 → cell (put [-7, 2] 0 q) r = cell [-7, 2] r)
      ∧ divide ⟨[-7, 2], [0], 0⟩ 0 1 0 = .ok ⟨[-3, 2], [0], 0⟩
      ∧ divide ⟨[7, -2], [0], 0⟩ 0 1 0 = .ok ⟨[-3, -2], [0], 0⟩
      ∧ divide ⟨[-7, -2], [0], 0⟩ 0 1 0 = .ok ⟨[3, -2], [0], 0⟩
      ∧ divide ⟨[7, 2], [0], 0⟩ 0 1 0 = .ok ⟨[3, 2], [0], 0⟩ :=
  ⟨divide_truncates ⟨[-7, 2], [0], 0⟩ 0 1 0 (by decide) (by decide) (by decide) (by decide)
      (by decide) (by decide),
    by decide, by decide, by decide, by decide⟩

/-- C13: for registers in bounds, `CMP reg1,reg2` succeeds and changes only
register 0, which becomes the sign of the difference, taken over the
integers, of the two values held before: -1 if `register[reg1]` is smaller,
0 if they are equal, 1 if it is greater. -/
theorem cmp_sign (pu : ProcessingUnit) (reg1 reg2 : Int)
    (h1 : reg_ok pu reg1) (h2 : reg_ok pu reg2) :
    cmp pu reg1 reg2 = .ok { pu with
        registers := put pu.registers 0
          (Int.sign (cell pu.registers reg1 - cell pu.registers reg2)) }
      ∧ (cell pu.registers reg1 < cell pu.registers reg2 →
          Int.sign (cell pu.registers reg1 - cell pu.registers reg2) = -1)
      ∧ (cell pu.registers reg1 = cell pu.registers reg2 →
          Int.sign (cell pu.registers reg1 - cell pu.registers reg2) = 0)
      ∧ (cell pu.registers reg1 > cell pu.registers reg2 →
          Int.sign (cell pu.registers reg1 - cell pu.registers reg2) = 1)
      ∧ (∀ v, cell (put pu.registers 0 v) 0 = v)
      ∧ ∀ v r, reg_ok pu r → r ≠ 0 → cell (put pu.registers 0 v) r = cell pu.registers r := by
  have hlt : ∀ a b : Int, a < b → Int.sign (a - b) = -1 :=
    fun a b h => Int.sign_eq_neg_one_of_neg (by omega)
  have heq : ∀ a b : Int, a = b → Int.sign (a - b) = 0 := by
    intro a b h; subst h; simp
  have hgt : ∀ a b : Int, a > b → Int.sign (a - b) = 1 :=
    fun a b h => Int.sign_eq_one_of_pos (by omega)
  have hz : (0 : Int) < pu.registers.length := by
    have := h1.1; have := h1.2
    simp only [ProcessingUnit.num_registers] at *
    omega
  refine ⟨?_, hlt _ _, heq _ _, hgt _ _, fun v => cell_put_same _ _ _ (le_refl 0) hz, ?_⟩
  · rw [cmp, check_register_bounds_pass h1, check_register_bounds_pass h2]
    split_ifs with he hl
    · rw [heq _ _ he]
    · rw [hlt _ _ hl]
    · rw [hgt _ _ (by omega)]
  · intro v r hr hne
    exact cell_put_other _ _ _ _ (le_refl 0) hr.1 (Ne.symm hne)

/-- C13 on `INT_MIN` against `INT_MAX`, where a 32-bit subtraction would wrap
to 1, and with register 0 itself as the first operand: register 0 becomes -1
and register 1 keeps its value. -/
theorem cmp_sign_witness :
    cmp ⟨[-2147483648, 2147483647], [0], 0⟩ 0 1
        = .ok ⟨put [-2147483648, 2147483647] 0
            (Int.sign (cell [-2147483648, 2147483647] 0 - cell [-2147483648, 2147483647] 1)),
          [0], 0⟩
      ∧ cmp ⟨[-2147483648, 2147483647], [0], 0⟩ 0 1 = .ok ⟨[-1, 2147483647], [0], 0⟩
      ∧ cmp ⟨[5, 9, 7, 7], [0], 0⟩ 3 2 = .ok ⟨[0, 9, 7, 7], [0], 0⟩
      ∧ cmp ⟨[5, 9, 7, 7], [0], 0⟩ 1 0 = .ok ⟨[1, 9, 7, 7], [0], 0⟩ :=
  ⟨(cmp_sign ⟨[-2147483648, 2147483647], [0], 0⟩ 0 1 (by decide) (by decide)).1,
    by decide, by decide, by decide⟩

/-- C14: for registers in bounds, in any aliasing pattern, `ADD`, `SUB` and
`MUL` succeed and change only `register[reg3]`, which becomes the sum,
difference or product of the values `register[reg1]` and `register[reg2]`
held before the instruction, reduced to a 32-bit value and exact whenever the
result is a 32-bit value; the `switch` leaves the instruction pointer as it
is. -/
theorem add_sub_mul (pu : ProcessingUnit) (reg1 reg2 reg3 : Int)
    (h1 : reg_ok pu reg1) (h2 : reg_ok pu reg2) (h3 : reg_ok pu reg3) :
    add pu reg1 reg2 reg3 = .ok { pu with
        registers := put pu.registers reg3
          (wrap32 (cell pu.registers reg1 + cell pu.registers reg2)) }
      ∧ subtract pu reg1 reg2 reg3 = .ok { pu with
        registers := put pu.registers reg3
          (wrap32 (cell pu.registers reg1 - cell pu.registers reg2)) }
      ∧ multiply pu reg1 reg2 reg3 = .ok { pu with
        registers := put pu.registers reg3
          (wrap32 (cell pu.registers reg1 * cell pu.registers reg2)) }
      ∧ (∀ x, is_int32 (wrap32 x) ∧ (wrap32 x - x) % 4294967296 = 0
          ∧ (is_int32 x → wrap32 x = x))
      ∧ (∀ v, cell (put pu.registers reg3 v) reg3 = v)
      ∧ (∀ v r, reg_ok pu r → r ≠ reg3 →
          cell (put pu.registers reg3 v) r = cell pu.registers r)
      ∧ ∀ (ip addr immediate : Int),
          dispatch pu ip (Instruction.mk_op .OP_ADD reg1 reg2 reg3 addr immediate)
              = (add pu reg1 reg2 reg3).map (Flow.brk · ip)
            ∧ dispatch pu ip (Instruction.mk_op .OP_SUB reg1 reg2 reg3 addr immediate)
              = (subtract pu reg1 reg2 reg3).map (Flow.brk · ip)
            ∧ dispatch pu ip (Instruction.mk_op .OP_MUL reg1 reg2 reg3 addr immediate)
              = (multiply pu reg1 reg2 reg3).map (Flow.brk · ip) := by
  refine ⟨?_, ?_, ?_, ?_, fun v => cell_put_same _ _ _ h3.1 h3.2, ?_, ?_⟩
  · rw [add, check_register_bounds_pass h1, check_register_bounds_pass h2,
      check_register_bounds_pass h3]
  · rw [subtract, check_register_bounds_pass h1, check_register_bounds_pass h2,
      check_register_bounds_pass h3]
  · rw [multiply, check_register_bounds_pass h1, check_register_bounds_pass h2,
      check_register_bounds_pass h3]
  · intro x
    exact ⟨(wrap32_int32 x).1, (wrap32_int32 x).2, wrap32_of_int32 x⟩
  · intro v r hr hne
    exact cell_put_other _ _ _ _ h3.1 hr.1 (Ne.symm hne)
  · intro ip addr immediate
    simp [dispatch, Instruction.mk_op, Opcode.toInt, Opcode.ofInt]

/-- C14 on registers 6, 7, 0 with the destination aliasing a source:
`ADD r0,r1,r0` gives 13, `SUB r0,r1,r1` gives -1, `MUL r0,r1,r2` gives 42. -/
theorem add_sub_mul_witness :
    add ⟨[6, 7, 0], [0], 0⟩ 0 1 0 = .ok ⟨[13, 7, 0], [0], 0⟩
      ∧ subtract ⟨[6, 7, 0], [0], 0⟩ 0 1 1 = .ok ⟨[6, -1, 0], [0], 0⟩
      ∧ multiply ⟨[6, 7, 0], [0], 0⟩ 0 1 2 = .ok ⟨[6, 7, 42], [0], 0⟩ :=
  ⟨(add_sub_mul ⟨[6, 7, 0], [0], 0⟩ 0 1 0 (by decide) (by decide) (by decide)).1,
    (add_sub_mul ⟨[6, 7, 0], [0], 0⟩ 0 1 1 (by decide) (by decide) (by decide)).2.1,
    (add_sub_mul ⟨[6, 7, 0], [0], 0⟩ 0 1 2 (by decide) (by decide) (by decide)).2.2.1⟩

/-- C15: two instructions with the same opcode, one of the 24, that agree on
the operand fields this opcode uses have the same outcome on every machine
and instruction pointer: the `switch` gives the same machine, pointer and way
out, or the same exit, and so does the loop body for every
`instruction_count`, whatever the other fields hold. -/
theorem unused_fields_ignored (pu : ProcessingUnit) (ip count : Int) (a b : Instruction)
    (op : Opcode) (hop : Opcode.ofInt a.opcode = some op) (hsame : b.opcode = a.opcode)
    (hag : same_used_fields op a b) :
    dispatch pu ip a = dispatch pu ip b
      ∧ after_switch count (dispatch pu ip a) = after_switch count (dispatch pu ip b) := by
  have hd : dispatch pu ip a = dispatch pu ip b := by
    unfold dispatch
    rw [hsame, hop]
    cases op <;> simp only [same_used_fields] at hag <;> simp [hag]
  exact ⟨hd, by rw [hd]⟩

/-- C15 on two `ADD r0,r1,r2` that differ in `addr` and `immediate`, and two
`JMP 3` whose register fields differ and are out of range in one. -/
theorem unused_fields_ignored_witness :
    (dispatch ⟨[6, 7, 0], [0], 0⟩ 0 (Instruction.mk_op .OP_ADD 0 1 2 99 (-5))
        = dispatch ⟨[6, 7, 0], [0], 0⟩ 0 (Instruction.mk_op .OP_ADD 0 1 2 0 0)
      ∧ after_switch 4 (dispatch ⟨[6, 7, 0], [0], 0⟩ 0 (Instruction.mk_op .OP_ADD 0 1 2 99 (-5)))
        = after_switch 4 (dispatch ⟨[6, 7, 0], [0], 0⟩ 0 (Instruction.mk_op .OP_ADD 0 1 2 0 0)))
      ∧ (dispatch ⟨[6, 7, 0], [0], 0⟩ 0 (Instruction.mk_op .OP_JMP 50 (-1) 7 3 8)
        = dispatch ⟨[6, 7, 0], [0], 0⟩ 0 (Instruction.mk_op .OP_JMP 0 0 0 3 0)
      ∧ after_switch 4 (dispatch ⟨[6, 7, 0], [0], 0⟩ 0 (Instruction.mk_op .OP_JMP 50 (-1) 7 3 8))
        = after_switch 4 (dispatch ⟨[6, 7, 0], [0], 0⟩ 0 (Instruction.mk_op .OP_JMP 0 0 0 3 0))) :=
  ⟨unused_fields_ignored ⟨[6, 7, 0], [0], 0⟩ 0 4 (Instruction.mk_op .OP_ADD 0 1 2 99 (-5))
      (Instruction.mk_op .OP_ADD 0 1 2 0 0) .OP_ADD rfl rfl (by decide),
    unused_fields_ignored ⟨[6, 7, 0], [0], 0⟩ 0 4 (Instruction.mk_op .OP_JMP 50 (-1) 7 3 8)
      (Instruction.mk_op .OP_JMP 0 0 0 3 0) .OP_JMP rfl rfl (by decide)⟩

theorem ofInt_toInt (op : Opcode) : Opcode.ofInt op.toInt = some op := by
  cases op <;> rfl

theorem ofInt_eq_none (v : Int) (h : ∀ op : Opcode, v ≠ op.toInt) : Opcode.ofInt v = none := by
  cases hv : Opcode.ofInt v with
  | none => rfl
  | some op =>
    exfalso
    apply h op
    unfold Opcode.ofInt at hv
    split_ifs at hv with hneg
    split at hv <;> first
      | (cases hv; simp only [Opcode.toInt]; omega)
      | cases hv

/-- C16: when the instruction at the instruction pointer is `JMP addr`, or
`JZ reg1,addr` with `register[reg1] == 0`, or `JNZ reg1,addr` with
`register[reg1] != 0` (`reg1` in bounds), and the limit is not reached, one
loop iteration sets the instruction pointer to `addr` and leaves
`instruction_count` and the machine as they are; for `JMP` this holds
whatever the register fields and `addr` are. -/
theorem jump_not_counted (program : List Instruction) (mic : Int) (s : EngineState)
    (instr : Instruction) (i : Nat) (hi : s.instruction_pointer = i)
    (hf : program[i]? = some instr) (hc : s.instruction_count < mic) :
    (instr.opcode = Opcode.OP_JMP.toInt →
        cycle program mic s = .ok (.running ⟨s.pu, instr.addr, s.instruction_count⟩))
      ∧ (instr.opcode = Opcode.OP_JZ.toInt → reg_ok s.pu instr.reg1 →
          cell s.pu.registers instr.reg1 = 0 →
        cycle program mic s = .ok (.running ⟨s.pu, instr.addr, s.instruction_count⟩))
      ∧ (instr.opcode = Opcode.OP_JNZ.toInt → reg_ok s.pu instr.reg1 →
          cell s.pu.registers instr.reg1 ≠ 0 →
        cycle program mic s = .ok (.running ⟨s.pu, instr.addr, s.instruction_count⟩)) := by
  refine ⟨?_, ?_, ?_⟩
  · intro hop
    rw [cycle_fetch i hi hf hc]
    simp [dispatch, hop, Opcode.toInt, Opcode.ofInt, jmp, after_switch]
  · intro hop hr hz
    rw [cycle_fetch i hi hf hc]
    simp [dispatch, hop, Opcode.toInt, Opcode.ofInt, jz, check_register_bounds_pass hr, hz,
      Outcome.map, after_switch]
  · intro hop hr hz
    rw [cycle_fetch i hi hf hc]
    simp [dispatch, hop, Opcode.toInt, Opcode.ofInt, jnz, check_register_bounds_pass hr, hz,
      Outcome.map, after_switch]

/-- C16 on `[JMP 0]` with register fields out of range, after 3 counted
instructions: the pointer becomes 0 and the count stays 3. -/
theorem jump_not_counted_witness :
    cycle [Instruction.mk_op .OP_JMP 50 (-1) 7 0 0] 1000 ⟨⟨[6, 7, 0], [0], 0⟩, 0, 3⟩
      = .ok (.running ⟨⟨[6, 7, 0], [0], 0⟩, 0, 3⟩) :=
  (jump_not_counted [Instruction.mk_op .OP_JMP 50 (-1) 7 0 0] 1000
    ⟨⟨[6, 7, 0], [0], 0⟩, 0, 3⟩ (Instruction.mk_op .OP_JMP 50 (-1) 7 0 0) 0 rfl rfl
    (by decide)).1 rfl

/-- C17, counterexample: `halt_after_one` is one instruction that is not a
jump followed by `HALT`; run with a limit of 1, the engine reaches the `HALT`
at index 1 with `instruction_count = 1`, and the limit check at the top of the
loop exits with `InstructionLimitExceeded` before the `HALT` is fetched. -/
theorem halt_limit_counterexample :
    halt_after_one[1]? = some (Instruction.mk_op .OP_HALT 0 0 0 0 0)
      ∧ cycles halt_after_one 1 1 ⟨⟨[0], [0], 0⟩, 0, 0⟩ = some ⟨⟨[1], [0], 0⟩, 1, 1⟩
      ∧ cycle halt_after_one 1 ⟨⟨[1], [0], 0⟩, 1, 1⟩
          = .exit .InstructionLimitExceeded ⟨[1], [0], 0⟩
      ∧ execute_program ⟨[0], [0], 0⟩ halt_after_one 1 2
          = some (.exit .InstructionLimitExceeded ⟨[1], [0], 0⟩) := by
  decide

/-- C17, amended: when the instruction pointer addresses a `HALT`, one loop
iteration returns to the caller with the machine unchanged if
`instruction_count < max_instruction_count`, and exits with
`InstructionLimitExceeded` (the machine unchanged) if
`instruction_count >= max_instruction_count`: the limit check comes before
the fetch. -/
theorem halt_within_limit (program : List Instruction) (mic : Int) (s : EngineState)
    (instr : Instruction) (i : Nat) (hi : s.instruction_pointer = i)
    (hf : program[i]? = some instr) (hop : instr.opcode = Opcode.OP_HALT.toInt) :
    (s.instruction_count < mic →
        cycle program mic s = .ok (.returned s.pu)
          ∧ ∀ fuel, execute_loop program mic (fuel + 1) s = some (.ok s.pu))
      ∧ (mic ≤ s.instruction_count →
        cycle program mic s = .exit .InstructionLimitExceeded s.pu
          ∧ ∀ fuel, execute_loop program mic (fuel + 1) s
              = some (.exit .InstructionLimitExceeded s.pu)) := by
  have hlt : i < program.length := by
    rcases Nat.lt_or_ge i program.length with h | h
    · exact h
    · rw [List.getElem?_eq_none h] at hf; cases hf
  constructor
  · intro hc
    have hcy : cycle program mic s = .ok (.returned s.pu) := by
      rw [cycle_fetch i hi hf hc]
      simp [dispatch, hop, Opcode.toInt, Opcode.ofInt, after_switch]
    exact ⟨hcy, fun fuel => execute_loop_returned hcy fuel⟩
  · intro hc
    have hcy : cycle program mic s = .exit .InstructionLimitExceeded s.pu := by
      unfold cycle
      rw [if_pos (by omega), if_pos (by omega)]
    exact ⟨hcy, fun fuel => execute_loop_exit hcy fuel⟩

/-- C17 amended, on `halt_after_one`: with a limit of 2 the `HALT` at index 1
is reached with `instruction_count = 1` and returns. -/
theorem halt_within_limit_witness :
    cycle halt_after_one 2 ⟨⟨[1], [0], 0⟩, 1, 1⟩ = .ok (.returned ⟨[1], [0], 0⟩)
      ∧ ∀ fuel, execute_loop halt_after_one 2 (fuel + 1) ⟨⟨[1], [0], 0⟩, 1, 1⟩
          = some (.ok ⟨[1], [0], 0⟩) :=
  (halt_within_limit halt_after_one 2 ⟨⟨[1], [0], 0⟩, 1, 1⟩
    (Instruction.mk_op .OP_HALT 0 0 0 0 0) 1 rfl rfl rfl).1 (by decide)

/-- C18, counterexample: on `unknown_program`, whose only instruction has
the opcode value 99, one loop iteration from instruction pointer 0 does not
fail and leaves the machine as it is, but the instruction pointer is 1
afterwards (and one instruction has been counted). -/
theorem unknown_opcode_counterexample :
    cycle unknown_program 1000 ⟨⟨[6, 7, 0], [0], 0⟩, 0, 0⟩
        = .ok (.running ⟨⟨[6, 7, 0], [0], 0⟩, 1, 1⟩)
      ∧ cycle unknown_program 1000 ⟨⟨[6, 7, 0], [0], 0⟩, 0, 0⟩
        ≠ .ok (.running ⟨⟨[6, 7, 0], [0], 0⟩, 0, 0⟩) := by
  decide

/-- C18, amended: for an instruction whose opcode value is none of the 24
enumerators, the `switch` has no matching `case`: it does not fail and
leaves the machine and the instruction pointer as they are; the statements
after the `switch` then add 1 to the instruction pointer and 1 to
`instruction_count`, so one loop iteration steps over the instruction. -/
theorem unknown_opcode_skipped (program : List Instruction) (mic : Int) (s : EngineState)
    (instr : Instruction) (i : Nat) (hi : s.instruction_pointer = i)
    (hf : program[i]? = some instr) (hc : s.instruction_count < mic)
    (hop : ∀ op : Opcode, instr.opcode ≠ op.toInt) :
    dispatch s.pu s.instruction_pointer instr = .ok (.brk s.pu s.instruction_pointer)
      ∧ cycle program mic s
          = .ok (.running ⟨s.pu, s.instruction_pointer + 1, s.instruction_count + 1⟩) := by
  have hd : dispatch s.pu s.instruction_pointer instr
      = .ok (.brk s.pu s.instruction_pointer) := by
    unfold dispatch
    rw [ofInt_eq_none _ hop]
  refine ⟨hd, ?_⟩
  rw [cycle_fetch i hi hf hc, hd]
  rfl

/-- C18 amended, on `unknown_program`. -/
theorem unknown_opcode_skipped_witness :
    dispatch ⟨[6, 7, 0], [0], 0⟩ 0 ⟨99, 0, 0, 0, 0, 0⟩ = .ok (.brk ⟨[6, 7, 0], [0], 0⟩ 0)
      ∧ cycle unknown_program 1000 ⟨⟨[6, 7, 0], [0], 0⟩, 0, 0⟩
          = .ok (.running ⟨⟨[6, 7, 0], [0], 0⟩, 0 + 1, 0 + 1⟩) :=
  unknown_opcode_skipped unknown_program 1000 ⟨⟨[6, 7, 0], [0], 0⟩, 0, 0⟩
    ⟨99, 0, 0, 0, 0, 0⟩ 0 rfl rfl (by decide) (by intro op; cases op <;> decide)

/-- C19: when the limit is not reached and the instruction at the instruction
pointer is `JZ reg1,addr` with `register[reg1] != 0`, or `JNZ reg1,addr` with
`register[reg1] == 0` (`reg1` in bounds), one loop iteration gives back the
same engine state: same machine, same instruction pointer, same
`instruction_count`. So every later state is this state, and no amount of
fuel ends the loop: the run neither returns nor exits. -/
theorem not_taken_jump_stalls (program : List Instruction) (mic : Int) (s : EngineState)
    (instr : Instruction) (i : Nat) (hi : s.instruction_pointer = i)
    (hf : program[i]? = some instr) (hc : s.instruction_count < mic)
    (hr : reg_ok s.pu instr.reg1)
    (hcase : (instr.opcode = Opcode.OP_JZ.toInt ∧ cell s.pu.registers instr.reg1 ≠ 0)
      ∨ (instr.opcode = Opcode.OP_JNZ.toInt ∧ cell s.pu.registers instr.reg1 = 0)) :
    cycle program mic s = .ok (.running s)
      ∧ (∀ k, cycles program mic k s = some s)
      ∧ (∀ fuel, execute_loop program mic fuel s = none) := by
  have hcy : cycle program mic s = .ok (.running s) := by
    rw [cycle_fetch i hi hf hc]
    rcases hcase with ⟨hop, hz⟩ | ⟨hop, hz⟩
    · simp [dispatch, hop, Opcode.toInt, Opcode.ofInt, jz, check_register_bounds_pass hr, hz,
        Outcome.map, after_switch]
    · simp [dispatch, hop, Opcode.toInt, Opcode.ofInt, jnz, check_register_bounds_pass hr, hz,
        Outcome.map, after_switch]
  refine ⟨hcy, ?_, ?_⟩
  · intro k
    induction k with
    | zero => rfl
    | succ k ih => rw [cycles, hcy]; exact ih
  · intro fuel
    induction fuel with
    | zero => rfl
    | succ fuel ih => rw [execute_loop_running hcy]; exact ih

/-- C19 on `[JZ r0,1, HALT]` with `register[0] == 5`: the `HALT` at index 1 is
never reached. -/
theorem not_taken_jump_stalls_witness :
    cycle [Instruction.mk_op .OP_JZ 0 0 0 1 0, Instruction.mk_op .OP_HALT 0 0 0 0 0] 1000
        ⟨⟨[5], [0], 0⟩, 0, 0⟩ = .ok (.running ⟨⟨[5], [0], 0⟩, 0, 0⟩)
      ∧ (∀ k, cycles [Instruction.mk_op .OP_JZ 0 0 0 1 0, Instruction.mk_op .OP_HALT 0 0 0 0 0]
          1000 k ⟨⟨[5], [0], 0⟩, 0, 0⟩ = some ⟨⟨[5], [0], 0⟩, 0, 0⟩)
      ∧ (∀ fuel, execute_loop
          [Instruction.mk_op .OP_JZ 0 0 0 1 0, Instruction.mk_op .OP_HALT 0 0 0 0 0] 1000 fuel
          ⟨⟨[5], [0], 0⟩, 0, 0⟩ = none) :=
  not_taken_jump_stalls
    [Instruction.mk_op .OP_JZ 0 0 0 1 0, Instruction.mk_op .OP_HALT 0 0 0 0 0] 1000
    ⟨⟨[5], [0], 0⟩, 0, 0⟩ (Instruction.mk_op .OP_JZ 0 0 0 1 0) 0 rfl rfl (by decide)
    (by decide) (Or.inl ⟨rfl, by decide⟩)

theorem dispatch_counted (pu : ProcessingUnit) (ip : Int) (instr : Instruction)
    (hs : no_uncounted_jump instr = true) (ht : target_below_max instr = true) :
    counted_outcome pu ip instr (dispatch pu ip instr) := by
  have hms : pu.memory_size = pu.memory.length := rfl
  unfold no_uncounted_jump at hs
  unfold target_below_max at ht
  unfold dispatch
  split <;> rename_i hop <;> rw [hop] at hs ht <;>
    simp only [add, subtract, multiply, divide, c_div, store, load, load_immediate, push, pop,
      mov, jz, jnz, je, jne, and, or, xor, not, shl, shr, cmp, test, jmp,
      check_register_bounds, decide_eq_true_eq, reduceCtorEq] at hs ht ⊢ <;>
    (try split_ifs) <;>
    simp only [Outcome.map, counted_outcome, Fault.typed, sp_ok, div_overflow,
      ProcessingUnit.memory_size, length_put, ne_eq, reduceCtorEq, not_false_eq_true,
      and_self, and_true, true_and, false_and, or_false, false_or, true_or, or_true, hop] <;>
    (try split_ifs) <;>
    (try simp only [counted_outcome]) <;>
    (try omega)

theorem cycle_counted (program : List Instruction) (mic : Int) (s : EngineState)
    (hprog : program.all no_uncounted_jump = true)
    (htarget : program.all target_below_max = true) (hip : 0 ≤ s.instruction_pointer) :
    (∃ pu', cycle program mic s = .ok (.returned pu'))
      ∨ (∃ s', cycle program mic s = .ok (.running s')
          ∧ s'.instruction_count = s.instruction_count + 1 ∧ s.instruction_count < mic
          ∧ 0 ≤ s'.instruction_pointer)
      ∨ (∃ f pu', cycle program mic s = .exit f pu'
          ∧ (f.typed = true ∨ f = .UndefinedBehaviour)
          ∧ (f = .UndefinedBehaviour → sp_ok s.pu →
              ∃ instr, program[s.instruction_pointer.toNat]? = some instr
                ∧ div_overflow s.pu instr)
          ∧ (f = .InstructionLimitExceeded →
              mic ≤ s.instruction_count ∧ s.instruction_pointer < program.length)
          ∧ (f ≠ .InstructionLimitExceeded → s.instruction_count < mic)) := by
  unfold cycle
  split_ifs with hlt hge hneg
  · exact Or.inr (Or.inr ⟨_, _, rfl, Or.inl rfl, (fun h => by cases h),
      fun _ => ⟨by omega, hlt⟩, fun h => absurd rfl h⟩)
  · omega
  · have hnat : s.instruction_pointer.toNat < program.length := by omega
    rw [List.getElem?_eq_getElem hnat]
    have hmem : program[s.instruction_pointer.toNat] ∈ program := List.getElem_mem hnat
    have hs := List.all_eq_true.mp hprog _ hmem
    have ht := List.all_eq_true.mp htarget _ hmem
    have hd := dispatch_counted s.pu s.instruction_pointer _ hs ht
    simp only
    cases hres : dispatch s.pu s.instruction_pointer program[s.instruction_pointer.toNat] with
    | exit f pu' =>
      rw [hres] at hd
      simp only [counted_outcome] at hd
      refine Or.inr (Or.inr ⟨f, pu', rfl, ?_, ?_, ?_, fun _ => by omega⟩)
      · rcases hd with ⟨h, -⟩ | ⟨h, -⟩
        · exact Or.inl h
        · exact Or.inr h
      · intro hf hsp
        rcases hd with ⟨h, -⟩ | ⟨-, h | h⟩
        · rw [hf] at h; cases h
        · exact ⟨_, rfl, h⟩
        · exact absurd hsp h
      · intro hf
        rcases hd with ⟨-, h⟩ | ⟨h, -⟩
        · exact absurd hf h
        · rw [hf] at h; cases h
    | ok flow =>
      rw [hres] at hd
      cases flow with
      | brk pu' ip' =>
        simp only [counted_outcome] at hd
        exact Or.inr (Or.inl ⟨_, rfl, rfl, by omega, by simp only; omega⟩)
      | brk_set pu' ip' =>
        simp only [counted_outcome] at hd
        refine Or.inr (Or.inl ⟨_, rfl, rfl, by omega, ?_⟩)
        simp only
        rw [wrap32_of_int32 _ (by unfold is_int32; omega)]
        omega
      | cont pu' ip' => simp only [counted_outcome] at hd
      | ret pu' => exact Or.inl ⟨pu', rfl⟩
  · exact Or.inl ⟨_, rfl⟩

theorem loop_bounded (program : List Instruction) (mic : Int)
    (hprog : program.all no_uncounted_jump = true)
    (htarget : program.all target_below_max = true) :
    ∀ (d : Nat) (s : EngineState), mic - s.instruction_count ≤ d →
      0 ≤ s.instruction_pointer → s.instruction_count ≤ mic →
      ∃ (k : Nat) (s' : EngineState) (result : Outcome ProcessingUnit),
        (k : Int) ≤ mic - s.instruction_count
          ∧ cycles program mic k s = some s'
          ∧ s'.instruction_count = s.instruction_count + k
          ∧ (∀ fuel, k < fuel → execute_loop program mic fuel s = some result)
          ∧ (∀ fuel, fuel ≤ k → execute_loop program mic fuel s = none)
          ∧ ∀ f pu', result = .exit f pu' →
              (f.typed = true ∨ f = .UndefinedBehaviour)
              ∧ (f = .UndefinedBehaviour → sp_ok s'.pu →
                  0 ≤ s'.instruction_pointer
                    ∧ ∃ instr, program[s'.instruction_pointer.toNat]? = some instr
                      ∧ div_overflow s'.pu instr)
              ∧ (f = .InstructionLimitExceeded →
                  s'.instruction_count = mic ∧ 0 ≤ s'.instruction_pointer
                    ∧ s'.instruction_pointer < program.length)
              ∧ (f ≠ .InstructionLimitExceeded → s'.instruction_count < mic) := by
  have terminal_ok : ∀ (s : EngineState) (pu' : ProcessingUnit),
      cycle program mic s = .ok (.returned pu') → s.instruction_count ≤ mic →
      ∃ (k : Nat) (s' : EngineState) (result : Outcome ProcessingUnit),
        (k : Int) ≤ mic - s.instruction_count
          ∧ cycles program mic k s = some s'
          ∧ s'.instruction_count = s.instruction_count + k
          ∧ (∀ fuel, k < fuel → execute_loop program mic fuel s = some result)
          ∧ (∀ fuel, fuel ≤ k → execute_loop program mic fuel s = none)
          ∧ ∀ f pu', result = .exit f pu' →
              (f.typed = true ∨ f = .UndefinedBehaviour)
              ∧ (f = .UndefinedBehaviour → sp_ok s'.pu →
                  0 ≤ s'.instruction_pointer
                    ∧ ∃ instr, program[s'.instruction_pointer.toNat]? = some instr
                      ∧ div_overflow s'.pu instr)
              ∧ (f = .InstructionLimitExceeded →
                  s'.instruction_count = mic ∧ 0 ≤ s'.instruction_pointer
                    ∧ s'.instruction_pointer < program.length)
              ∧ (f ≠ .InstructionLimitExceeded → s'.instruction_count < mic) := by
    intro s pu' hc hle
    refine ⟨0, s, .ok pu', by omega, rfl, by simp, ?_, ?_, ?_⟩
    · intro fuel hf
      obtain ⟨g, rfl⟩ : ∃ g, fuel = g + 1 := ⟨fuel - 1, by omega⟩
      exact execute_loop_returned hc g
    · intro fuel hf
      obtain rfl : fuel = 0 := by omega
      rfl
    · intro f pu1 h; cases h
  have terminal_exit : ∀ (s : EngineState) (f : Fault) (pu' : ProcessingUnit),
      cycle program mic s = .exit f pu' → s.instruction_count ≤ mic →
      0 ≤ s.instruction_pointer →
      (f.typed = true ∨ f = .UndefinedBehaviour) →
      (f = .UndefinedBehaviour → sp_ok s.pu →
        ∃ instr, program[s.instruction_pointer.toNat]? = some instr ∧ div_overflow s.pu instr) →
      (f = .InstructionLimitExceeded →
        mic ≤ s.instruction_count ∧ s.instruction_pointer < program.length) →
      (f ≠ .InstructionLimitExceeded → s.instruction_count < mic) →
      ∃ (k : Nat) (s' : EngineState) (result : Outcome ProcessingUnit),
        (k : Int) ≤ mic - s.instruction_count
          ∧ cycles program mic k s = some s'
          ∧ s'.instruction_count = s.instruction_count + k
          ∧ (∀ fuel, k < fuel → execute_loop program mic fuel s = some result)
          ∧ (∀ fuel, fuel ≤ k → execute_loop program mic fuel s = none)
          ∧ ∀ f pu', result = .exit f pu' →
              (f.typed = true ∨ f = .UndefinedBehaviour)
              ∧ (f = .UndefinedBehaviour → sp_ok s'.pu →
                  0 ≤ s'.instruction_pointer
                    ∧ ∃ instr, program[s'.instruction_pointer.toNat]? = some instr
                      ∧ div_overflow s'.pu instr)
              ∧ (f = .InstructionLimitExceeded →
                  s'.instruction_count = mic ∧ 0 ≤ s'.instruction_pointer
                    ∧ s'.instruction_pointer < program.length)
              ∧ (f ≠ .InstructionLimitExceeded → s'.instruction_count < mic) := by
    intro s f pu' hc hle hip hty hub hlim hnl
    refine ⟨0, s, .exit f pu', by omega, rfl, by simp, ?_, ?_, ?_⟩
    · intro fuel hf
      obtain ⟨g, rfl⟩ : ∃ g, fuel = g + 1 := ⟨fuel - 1, by omega⟩
      exact execute_loop_exit hc g
    · intro fuel hf
      obtain rfl : fuel = 0 := by omega
      rfl
    · intro f1 pu1 h
      cases h
      exact ⟨hty, fun h hsp => ⟨hip, hub h hsp⟩,
        fun h => ⟨by have := (hlim h).1; omega, hip, (hlim h).2⟩, hnl⟩
  intro d
  induction d with
  | zero =>
    intro s hd hip hle
    rcases cycle_counted program mic s hprog htarget hip with
      ⟨pu', hc⟩ | ⟨s', hc, -, hlt, -⟩ | ⟨f, pu', hc, hty, hub, hlim, hnl⟩
    · exact terminal_ok s pu' hc hle
    · omega
    · exact terminal_exit s f pu' hc hle hip hty hub hlim hnl
  | succ d ih =>
    intro s hd hip hle
    rcases cycle_counted program mic s hprog htarget hip with
      ⟨pu', hc⟩ | ⟨s', hc, hcnt, hlt, hip'⟩ | ⟨f, pu', hc, hty, hub, hlim, hnl⟩
    · exact terminal_ok s pu' hc hle
    · obtain ⟨k, s2, result, hk, hcy, hcount, hfuel, hnone, hres⟩ :=
        ih s' (by push_cast at hd; omega) hip' (by omega)
      refine ⟨k + 1, s2, result, by push_cast; omega, ?_, by push_cast; omega, ?_, ?_, hres⟩
      · rw [cycles, hc]; exact hcy
      · intro fuel hf
        obtain ⟨g, rfl⟩ : ∃ g, fuel = g + 1 := ⟨fuel - 1, by omega⟩
        rw [execute_loop_running hc]
        exact hfuel g (by omega)
      · intro fuel hf
        cases fuel with
        | zero => rfl
        | succ g =>
          rw [execute_loop_running hc]
          exact hnone g (by omega)
    · exact terminal_exit s f pu' hc hle hip hty hub hlim hnl

end Mdpu
